import Mathlib

/-!
Verification of the kdev tool-acquisition pipeline (dennisklein/kdev).

The Go sources under `internal/tool` and `cmd/kdev` are shallowly embedded
here.  Paths are modelled as lists of path segments (`FPath`), file contents
and HTTP bodies as `String` (Go strings are byte sequences; all contents in
this development are ASCII), and the filesystem (an `afero.Fs`) as explicit
association lists.  External primitives are abstracted as parameters of the
embedding: the SHA-256 hex digest (`sha256hex`), gzip+tar decoding
(`untargz`), the HTTP transport (`net`), and the per-tool version-resolution
strategy (`resolveVersion`, which in Go is the injected `Tool.VersionFunc`
field).  Network requests issued by the embedded code itself (the checksum
fetch and the binary fetch of `download`) are recorded in a request log so
that cache-hit claims about "no request" are statable.
-/

namespace Kdev

/-- A filesystem path, as its list of path segments (`filepath.Join` appends
a segment, `filepath.Dir` drops the last segment). -/
abbrev FPath := List String

/-- The filesystem state: regular files with their contents, the set of
directories, and permission bits recorded by `Chmod`. -/
structure FS where
  files : List (FPath × String)
  dirs : List FPath
  modes : List (FPath × Nat)
deriving DecidableEq

/-- Association-list lookup on paths. -/
def lookupKey {β : Type} : List (FPath × β) → FPath → Option β
  | [], _ => none
  | (q, v) :: t, p => if q = p then some v else lookupKey t p

/-- Contents of the regular file at `p`, if one exists. -/
def getFile (fs : FS) (p : FPath) : Option String :=
  lookupKey fs.files p

/-- Models `FSHelper.Exists` / the launcher's `exists`: `Stat` succeeds and
the path is not a directory. -/
def existsFile (fs : FS) (p : FPath) : Bool :=
  (getFile fs p).isSome

/-- Models `FSHelper.IsDir`: `Stat` succeeds and the path is a directory. -/
def isDirFS (fs : FS) (p : FPath) : Bool :=
  fs.dirs.any (fun q => decide (q = p))

/-- `pathUnder p q` holds when `q` is `p` itself or lies below `p`
(segment-wise prefix); this is the set of paths deleted by `RemoveAll p`. -/
def pathUnder : FPath → FPath → Bool
  | [], _ => true
  | _, [] => false
  | a :: ps, b :: qs => decide (a = b) && pathUnder ps qs

/-- Models `fs.Create` followed by writing `c`: truncates/creates the file. -/
def createFile (fs : FS) (p : FPath) (c : String) : FS :=
  { fs with files := (p, c) :: fs.files.filter (fun kv => !decide (kv.1 = p)) }

/-- Models `fs.Remove` on a regular file (the error on an absent path is
swallowed at every call site in the source, because `download` has an
unnamed `error` return, so the deferred assignment never reaches the
caller; hence the pure erase is the observable effect). -/
def removeFile (fs : FS) (p : FPath) : FS :=
  { fs with
    files := fs.files.filter (fun kv => !decide (kv.1 = p))
    modes := fs.modes.filter (fun kv => !decide (kv.1 = p)) }

/-- Models `fs.RemoveAll`: deletes `p` and everything beneath it. -/
def removeAllFS (fs : FS) (p : FPath) : FS :=
  { files := fs.files.filter (fun kv => !pathUnder p kv.1)
    dirs := fs.dirs.filter (fun q => !pathUnder p q)
    modes := fs.modes.filter (fun kv => !pathUnder p kv.1) }

/-- Record the permission bits `m` for `p`. -/
def setMode (fs : FS) (p : FPath) (m : Nat) : FS :=
  { fs with modes := (p, m) :: fs.modes.filter (fun kv => !decide (kv.1 = p)) }

/-- Models `fs.Chmod`: fails when the path does not exist. -/
def chmodFS (fs : FS) (p : FPath) (m : Nat) : Except String FS :=
  if existsFile fs p || isDirFS fs p then .ok (setMode fs p m)
  else .error "chmod: no such file or directory"

/-- Models `fs.Rename` of a regular file: the destination is overwritten.
(The source's rename targets never carry a mode of their own before the
subsequent explicit `Chmod`, which this model applies via `setMode`.) -/
def renameFile (fs : FS) (a b : FPath) : Except String FS :=
  match getFile fs a with
  | none => .error "rename: no such file"
  | some c => .ok (createFile (removeFile fs a) b c)

/-- Models `fs.MkdirAll`: creates every missing ancestor directory; fails if
a regular file occupies the path or one of its ancestors. -/
def mkdirAll (fs : FS) (p : FPath) : Except String FS :=
  if p.inits.any (fun q => existsFile fs q) then .error "not a directory"
  else
    .ok { fs with
          dirs := (p.inits.filter (fun q => !(q.isEmpty || isDirFS fs q))) ++ fs.dirs }

/-- One entry of a directory listing. -/
structure DirEntry where
  name : String
  isDir : Bool
deriving DecidableEq

/-- Names of the immediate children of `d` (directories and regular files),
in the raw registry order. -/
def childNamesRaw (fs : FS) (d : FPath) : List String :=
  (fs.dirs ++ fs.files.map Prod.fst).filterMap (fun q =>
    if decide (q.length = d.length + 1) && pathUnder d q then q.getLast? else none)

/-- Lexicographic order on character lists by code point; for UTF-8 encoded
strings this coincides with Go's byte-wise string `<`. -/
def ltChars : List Char → List Char → Bool
  | [], [] => false
  | [], _ :: _ => true
  | _ :: _, [] => false
  | a :: as, b :: bs => if a = b then ltChars as bs else decide (a.toNat < b.toNat)

/-- Go's string `<`. -/
def goStrLt (a b : String) : Bool :=
  ltChars a.toList b.toList

/-- Models `strings.HasSuffix`. -/
def goHasSuffix (s suf : String) : Bool :=
  decide (suf.toList = (s.toList.reverse.take suf.toList.length).reverse)

/-- Ascending sort by name, as `afero.ReadDir` returns entries sorted by
filename. -/
def sortStrings (l : List String) : List String :=
  l.insertionSort (fun a b => goStrLt b a = false)

/-- Models `afero.ReadDir`: the children of `d` sorted by name, each with
its directory flag. -/
def readDir (fs : FS) (d : FPath) : List DirEntry :=
  (sortStrings (childNamesRaw fs d)).map (fun n => ⟨n, isDirFS fs (d ++ [n])⟩)

/-- The `destPath + ".tmp"` sibling used by `download`. -/
def tmpPath (p : FPath) : FPath :=
  p.dropLast ++ [(p.getLast?.getD "") ++ ".tmp"]

/-- Models `unicode.IsSpace` on the code points that occur in Latin-1
(Go's `strings.TrimSpace` / `strings.Fields` cut points). -/
def goIsSpace (c : Char) : Bool :=
  c == ' ' || c == '\t' || c == '\n' || c == '\x0b' || c == '\x0c' || c == '\r' ||
    c == '\u0085' || c == '\u00A0'

/-- Models `strings.TrimSpace`. -/
def goTrimSpace (s : String) : String :=
  String.mk (((s.toList.dropWhile goIsSpace).reverse.dropWhile goIsSpace).reverse)

/-- Accumulator worker for `goFields`; `cur` holds the current token,
reversed. -/
def goFieldsAux : List Char → List Char → List String
  | [], [] => []
  | [], cur => [String.mk cur.reverse]
  | c :: cs, cur =>
    if goIsSpace c then
      match cur with
      | [] => goFieldsAux cs []
      | _ => String.mk cur.reverse :: goFieldsAux cs []
    else goFieldsAux cs (c :: cur)

/-- Models `strings.Fields`: the whitespace-separated tokens of `s`. -/
def goFields (s : String) : List String :=
  goFieldsAux s.toList []

/-- Models `strings.Split(s, sep)` for a one-character separator, on
character lists. -/
def splitOnChar (sep : Char) : List Char → List (List Char)
  | [] => [[]]
  | c :: cs =>
    match splitOnChar sep cs with
    | h :: t => if c == sep then [] :: h :: t else (c :: h) :: t
    | [] => [[c]]

/-- Models `filepath.Base` for the slash-separated entry names found in tar
archives. -/
def goFilepathBase (s : String) : String :=
  if s = "" then "."
  else
    match ((splitOnChar '/' s.toList).filter (fun part => !part.isEmpty)).getLast? with
    | some b => String.mk b
    | none => "/"

/-- Decimal digits to a natural number (`strconv` parse core). -/
def digitsToNat (ds : List Char) : Nat :=
  ds.foldl (fun n c => n * 10 + (c.toNat - 48)) 0

/-- Models `strconv.ParseUint(s, 10, 64)` on a numeric version segment:
digits only, value below `2^64`.  (Wildcard characters `x`/`X`/`*` pass the
version regex but fail here, exactly as in the library.) -/
def parseGoUint (p : List Char) : Option Nat :=
  if !p.isEmpty && p.all Char.isDigit then
    let n := digitsToNat p
    if n < 2 ^ 64 then some n else none
  else none

/-- Models `strconv.ParseInt(s, 10, 64)` as used on prerelease identifiers:
an optional sign, then digits, value within the signed 64-bit range. -/
def parseGoInt (s : String) : Option Int :=
  match s.toList with
  | [] => none
  | '+' :: ds =>
    if !ds.isEmpty && ds.all Char.isDigit then
      let n := digitsToNat ds
      if n < 2 ^ 63 then some (n : Int) else none
    else none
  | '-' :: ds =>
    if !ds.isEmpty && ds.all Char.isDigit then
      let n := digitsToNat ds
      if n ≤ 2 ^ 63 then some (-(n : Int)) else none
    else none
  | ds =>
    if ds.all Char.isDigit then
      let n := digitsToNat ds
      if n < 2 ^ 63 then some (n : Int) else none
    else none

/-- A parsed semantic version, as `semver.Version`: numeric segments plus
the raw prerelease string (build metadata is validated but ignored by
comparison, so it is not stored). -/
structure SemVer where
  major : Nat
  minor : Nat
  patch : Nat
  pre : String
deriving DecidableEq

/-- Characters allowed in a numeric segment by the lenient version regex. -/
def isNumPartChar (c : Char) : Bool :=
  c.isDigit || c == 'x' || c == 'X' || c == '*'

/-- Characters allowed in prerelease / metadata identifiers:
`[0-9A-Za-z-]`. -/
def isIdentChar (c : Char) : Bool :=
  c.isDigit || c.isAlpha || c == '-'

/-- Dot-separated identifiers, each nonempty and over `[0-9A-Za-z-]`. -/
def validIdents (p : List Char) : Bool :=
  (splitOnChar '.' p).all (fun part => !part.isEmpty && part.all isIdentChar)

/-- Models `semver.NewVersion` (the lenient constructor used by
`compareVersions`): an optional `v`, one to three numeric segments, an
optional `-`-prefixed prerelease and an optional `+`-prefixed metadata
suffix, anchored at both ends; missing minor/patch default to `0`. -/
def parseSemver (s : String) : Option SemVer :=
  let cs0 := s.toList
  let cs := match cs0 with | 'v' :: t => t | _ => cs0
  let core := cs.takeWhile (fun c => !(c == '-') && !(c == '+'))
  let rest := cs.dropWhile (fun c => !(c == '-') && !(c == '+'))
  let parts := splitOnChar '.' core
  if parts.length > 3 || parts.any (fun part => part.isEmpty || !part.all isNumPartChar) then
    none
  else
    match parseGoUint (parts.headD []) with
    | none => none
    | some major =>
      let minorR := match parts[1]? with | some mp => parseGoUint mp | none => some 0
      let patchR := match parts[2]? with | some mp => parseGoUint mp | none => some 0
      match minorR, patchR with
      | some minor, some patch =>
        (match rest with
        | [] => some ⟨major, minor, patch, ""⟩
        | '-' :: r =>
          let preC := r.takeWhile (fun c => !(c == '+'))
          let metaR := r.dropWhile (fun c => !(c == '+'))
          if !validIdents preC then none
          else
            match metaR with
            | [] => some ⟨major, minor, patch, String.mk preC⟩
            | _ :: m =>
              if validIdents m then some ⟨major, minor, patch, String.mk preC⟩ else none
        | '+' :: m => if validIdents m then some ⟨major, minor, patch, ""⟩ else none
        | _ => none)
      | _, _ => none

/-- Models the library's `compareSegment` on numeric segments. -/
def compareSegment (a b : Nat) : Int :=
  if a < b then -1 else if b < a then 1 else 0

/-- Models the library's `comparePrePart` on one pair of prerelease
identifiers: equal strings tie, an absent part loses, numeric identifiers
compare numerically and sort below alphanumeric ones, otherwise plain
string order decides. -/
def comparePrePart (s o : String) : Int :=
  if s = o then 0
  else if s = "" then (if o ≠ "" then -1 else 1)
  else if o = "" then (if s ≠ "" then 1 else -1)
  else
    if parseGoInt o = none ∧ parseGoInt s = none then (if goStrLt o s then 1 else -1)
    else if parseGoInt o = none then -1
    else if parseGoInt s = none then 1
    else if (parseGoInt o).getD 0 < (parseGoInt s).getD 0 then 1 else -1

/-- Tail of the prerelease loop once the left side is exhausted: the left
identifier is padded with the empty part. -/
def comparePrePartsRight : List String → Int
  | [] => 0
  | o :: os =>
    let d := comparePrePart "" o
    if d = 0 then comparePrePartsRight os else d

/-- The library's prerelease loop: first nonzero identifier comparison wins,
with the shorter side padded by empty parts. -/
def comparePreParts : List String → List String → Int
  | [], os => comparePrePartsRight os
  | s :: ss, os =>
    let d := comparePrePart s (os.headD "")
    if d = 0 then comparePreParts ss os.tail else d

/-- Models the library's `comparePrerelease`: split both prerelease strings
on `.` and compare identifier-wise. -/
def comparePrerelease (a b : String) : Int :=
  comparePreParts ((splitOnChar '.' a.toList).map String.mk)
    ((splitOnChar '.' b.toList).map String.mk)

/-- Models `semver.Version.Compare`: major, minor, patch, then prerelease
precedence (a release outranks any prerelease of the same triple). -/
def semverCompare (a b : SemVer) : Int :=
  let dM := compareSegment a.major b.major
  if dM ≠ 0 then dM
  else
    let dm := compareSegment a.minor b.minor
    if dm ≠ 0 then dm
    else
      let dp := compareSegment a.patch b.patch
      if dp ≠ 0 then dp
      else
        if a.pre = "" ∧ b.pre = "" then 0
        else if a.pre = "" then 1
        else if b.pre = "" then -1
        else comparePrerelease a.pre b.pre

/-- Models `compareVersions` (cache.go): semantic comparison when both
strings parse as semantic versions, raw string comparison otherwise. -/
def compareVersions (v1 v2 : String) : Int :=
  if parseSemver v1 = none ∨ parseSemver v2 = none then
    if goStrLt v2 v1 then 1 else if goStrLt v1 v2 then -1 else 0
  else
    semverCompare ((parseSemver v1).getD ⟨0, 0, 0, ""⟩) ((parseSemver v2).getD ⟨0, 0, 0, ""⟩)

/-- One HTTP response: status code and body. -/
structure HTTPResponse where
  status : Nat
  body : String
deriving DecidableEq

/-- The ambient configuration of one `Tool` value plus the external
primitives the embedded code consumes.  `net` models the HTTP transport
(`none` is a transport error), `sha256hex` the lowercase-hex SHA-256 digest
of `crypto/sha256`, `untargz` gzip+tar decoding (an archive's entries as
`(name, bytes)` pairs, `none` for invalid data), `resolveVersion` the
outcome of the injected strategy `Tool.VersionFunc`, `progress` the optional
`ProgressWriter` (`some f` is a configured sink whose write of a message
succeeds iff `f` returns `true`), and `xdgDataHome` / `userHomeDir` the
process environment consulted by `DataDir`. -/
structure ToolEnv where
  name : String
  net : String → Option HTTPResponse
  sha256hex : String → String
  untargz : String → Option (List (String × String))
  downloadURL : String → String → String → String
  checksumURL : String → String → String → String
  goos : String
  goarch : String
  resolveVersion : Except String String
  progress : Option (String → Bool)
  xdgDataHome : Option FPath
  userHomeDir : Except String FPath

/-- The observable world threaded through the stateful operations: the
filesystem, the URLs the embedded code has requested, and the progress
messages successfully written to the sink. -/
structure World where
  fs : FS
  requests : List String
  progressLog : List String

/-- Models `DataDir` (paths.go): the `XDG_DATA_HOME` override verbatim when
set and non-empty, else `<home>/.local/share` when that directory exists,
else `<home>/.kdev`; fails only when the home directory is undeterminable.
The function only reads the filesystem (its type returns no updated `FS`),
matching the source, which performs a single `Stat`. -/
def dataDir (env : ToolEnv) (fs : FS) : Except String FPath :=
  match env.xdgDataHome with
  | some p => .ok p
  | none =>
    match env.userHomeDir with
    | .error e => .error e
    | .ok home =>
      if isDirFS fs (home ++ [".local", "share"]) then .ok (home ++ [".local", "share"])
      else .ok (home ++ [".kdev"])

/-- Models `fetchChecksum` (download.go): GET the checksum document, reject
non-200 statuses, trim the body and keep only its first
whitespace-delimited field. -/
def fetchChecksum (net : String → Option HTTPResponse) (url : String) : Except String String :=
  match net url with
  | none => .error "request failed"
  | some resp =>
    if resp.status ≠ 200 then .error ("unexpected status code: " ++ toString resp.status)
    else
      let checksumStr := goTrimSpace resp.body
      match goFields checksumStr with
      | p :: _ => .ok p
      | [] => .ok checksumStr

/-- Models `extractTarGzFile` (kubectl.go): open the temp archive,
decompress, take the first entry whose base filename equals the tool name,
write its bytes to `destPath` and remove the archive; fail with a distinct
message when no entry matches. -/
def extractTarGzFile (untargz : String → Option (List (String × String))) (fs : FS)
    (archivePath destPath : FPath) (toolName : String) : FS × Option String :=
  match getFile fs archivePath with
  | none => (fs, some "failed to open archive: file does not exist")
  | some content =>
    match untargz content with
    | none => (fs, some "failed to create gzip reader: invalid data")
    | some entries =>
      match entries.find? (fun e => goFilepathBase e.1 == toolName) with
      | some ent => (removeFile (createFile fs destPath ent.2) archivePath, none)
      | none => (fs, some ("binary " ++ toolName ++ " not found in archive"))

/-- Models `Tool.download` (kubectl.go): build the platform URLs, ensure the
parent directory, fetch the expected checksum, GET the binary, stream it to
`destPath + ".tmp"` while hashing, compare digests, then either extract the
archive or atomically rename the temp file into place.  The deferred
`fs.Remove(tmpFile)` of the source runs on every path after the temp file
is created; its own error never reaches the caller (the function's `error`
return is unnamed), so the observable effect is the unconditional erase
applied below.  The cosmetic `ProgressReader` percentage output is not
modelled. -/
def download (env : ToolEnv) (w : World) (destPath : FPath) (version : String) :
    World × Option String :=
  let url := env.downloadURL version env.goos env.goarch
  let checksumURL := env.checksumURL version env.goos env.goarch
  match mkdirAll w.fs destPath.dropLast with
  | .error e => (w, some ("failed to create directory: " ++ e))
  | .ok fs1 =>
    let w1 : World := { w with fs := fs1, requests := w.requests ++ [checksumURL] }
    match fetchChecksum env.net checksumURL with
    | .error e => (w1, some ("failed to fetch checksum: " ++ e))
    | .ok expectedChecksum =>
      let w2 : World := { w1 with requests := w1.requests ++ [url] }
      match env.net url with
      | none => (w2, some "request failed")
      | some resp =>
        if resp.status ≠ 200 then
          (w2, some ("unexpected status code: " ++ toString resp.status))
        else
          let tmpFile := tmpPath destPath
          let fs2 := createFile w2.fs tmpFile resp.body
          let actualChecksum := env.sha256hex resp.body
          if actualChecksum ≠ expectedChecksum then
            ({ w2 with fs := removeFile fs2 tmpFile },
             some ("checksum mismatch: expected " ++ expectedChecksum ++ ", got " ++
               actualChecksum))
          else if goHasSuffix url ".tar.gz" then
            match extractTarGzFile env.untargz fs2 tmpFile destPath env.name with
            | (fs3, some e) =>
              ({ w2 with fs := removeFile fs3 tmpFile }, some ("failed to extract archive: " ++ e))
            | (fs3, none) => ({ w2 with fs := removeFile fs3 tmpFile }, none)
          else
            match renameFile fs2 tmpFile destPath with
            | .error e => ({ w2 with fs := removeFile fs2 tmpFile }, some e)
            | .ok fs3 => ({ w2 with fs := removeFile fs3 tmpFile }, none)

/-- The first progress message of the launcher and of `Tool.Download`. -/
def downloadingMsg (name version : String) : String :=
  "Downloading " ++ name ++ " " ++ version ++ "...\n"

/-- The second progress message of the launcher and of `Tool.Download`. -/
def downloadedMsg (name version : String) : String :=
  name ++ " " ++ version ++ " downloaded successfully\n"

/-- Models `Tool.writeProgress`: a no-op without a configured sink; with one,
the message is written and a failed write surfaces as an error. -/
def writeProgress (env : ToolEnv) (w : World) (msg : String) : World × Option String :=
  match env.progress with
  | none => (w, none)
  | some f =>
    if f msg then ({ w with progressLog := w.progressLog ++ [msg] }, none)
    else (w, some "write error")

/-- The binary's cache location `<dataDir>/kdev/<toolName>/<version>/<toolName>`. -/
def binPathOf (dd : FPath) (name version : String) : FPath :=
  dd ++ ["kdev", name, version, name]

/-- Shared tail of `prepareExec`: mark the binary executable and build the
argv vector (tool name first, forwarded arguments verbatim). -/
def finishExec (env : ToolEnv) (w : World) (binPath : FPath) (args : List String) :
    World × Except String (FPath × List String) :=
  match chmodFS w.fs binPath 0o755 with
  | .error e => (w, .error ("failed to make executable: " ++ e))
  | .ok fs1 => ({ w with fs := fs1 }, .ok (binPath, env.name :: args))

/-- Models `Tool.prepareExec` (tool.go): resolve the data directory and the
version, compute the cache path, download on a cache miss (with fail-fast
progress writes on both sides of the download), always chmod `0755`, and
return the path plus argv. -/
def prepareExec (env : ToolEnv) (w : World) (args : List String) :
    World × Except String (FPath × List String) :=
  match dataDir env w.fs with
  | .error e => (w, .error ("failed to determine data directory: " ++ e))
  | .ok dd =>
    match env.resolveVersion with
    | .error e => (w, .error ("failed to get version: " ++ e))
    | .ok version =>
      let binPath := binPathOf dd env.name version
      if existsFile w.fs binPath then finishExec env w binPath args
      else
        match writeProgress env w (downloadingMsg env.name version) with
        | (w1, some _) => (w1, .error "failed to write progress")
        | (w1, none) =>
          match download env w1 binPath version with
          | (w2, some e) => (w2, .error ("failed to download: " ++ e))
          | (w2, none) =>
            match writeProgress env w2 (downloadedMsg env.name version) with
            | (w3, some _) => (w3, .error "failed to write progress")
            | (w3, none) => finishExec env w3 binPath args

/-- A performed process-image replacement: the binary path and argv. -/
structure ExecCall where
  path : FPath
  argv : List String
deriving DecidableEq

/-- Models `Tool.Exec`: `syscall.Exec` is reached only when `prepareExec`
succeeds. -/
def toolExec (env : ToolEnv) (w : World) (args : List String) :
    World × Except String ExecCall :=
  match prepareExec env w args with
  | (w1, .error e) => (w1, .error e)
  | (w1, .ok (binPath, execArgs)) => (w1, .ok ⟨binPath, execArgs⟩)

/-- Models `Tool.Download` (cache.go): the pre-download operation; returns
immediately when the binary is already cached, otherwise writes progress,
downloads, chmods and writes the closing progress message. -/
def toolDownload (env : ToolEnv) (w : World) : World × Option String :=
  match dataDir env w.fs with
  | .error e => (w, some ("failed to determine data directory: " ++ e))
  | .ok dd =>
    match env.resolveVersion with
    | .error e => (w, some ("failed to get version: " ++ e))
    | .ok version =>
      let binPath := binPathOf dd env.name version
      if existsFile w.fs binPath then (w, none)
      else
        match writeProgress env w (downloadingMsg env.name version) with
        | (w1, some _) => (w1, some "failed to write progress")
        | (w1, none) =>
          match download env w1 binPath version with
          | (w2, some e) => (w2, some ("failed to download: " ++ e))
          | (w2, none) =>
            match chmodFS w2.fs binPath 0o755 with
            | .error e => (w2, some ("failed to make executable: " ++ e))
            | .ok fs3 =>
              let w3 : World := { w2 with fs := fs3 }
              match writeProgress env w3 (downloadedMsg env.name version) with
              | (w4, some _) => (w4, some "failed to write progress")
              | (w4, none) => (w4, none)

/-- Models `CachedVersion` (cache.go). -/
structure CachedVersion where
  version : String
  path : FPath
  size : Nat
deriving DecidableEq

/-- The comparator handed to `sort.Slice` by `CachedVersions`: descending,
`i` sorts before `j` when `compareVersions` is positive. -/
abbrev versionBefore (a b : CachedVersion) : Prop :=
  0 < compareVersions a.version b.version

/-- The `sort.Slice(versions, ...)` call of `CachedVersions`, modelled as a
sort by the same comparator. -/
def sortCachedVersions (l : List CachedVersion) : List CachedVersion :=
  l.insertionSort versionBefore

/-- One loop iteration of `CachedVersions`: a directory entry becomes a
cache entry when it is a directory whose `<version>/<toolName>` binary
exists (a second `Stat` supplies the size; in a static filesystem it agrees
with the existence check). -/
def entryOf (env : ToolEnv) (fs : FS) (toolDir : FPath) (e : DirEntry) : Option CachedVersion :=
  if e.isDir then
    (getFile fs (toolDir ++ [e.name, env.name])).map
      (fun c => ⟨e.name, toolDir ++ [e.name, env.name], c.length⟩)
  else none

/-- The entry-collection loop of `CachedVersions` over the directory
listing of the tool's cache root. -/
def collectEntries (env : ToolEnv) (fs : FS) (toolDir : FPath) : List CachedVersion :=
  (readDir fs toolDir).filterMap (entryOf env fs toolDir)

/-- Models `Tool.CachedVersions` (cache.go): empty when the tool's cache
root is absent; otherwise the qualifying version directories, sorted
descending by `compareVersions`. -/
def cachedVersions (env : ToolEnv) (fs : FS) : Except String (List CachedVersion) :=
  match dataDir env fs with
  | .error e => .error ("failed to get data directory: " ++ e)
  | .ok dd =>
    let toolDir := dd ++ ["kdev", env.name]
    if isDirFS fs toolDir then
      .ok (sortCachedVersions (collectEntries env fs toolDir))
    else .ok []

/-- Models `Tool.CleanVersion` (cache.go): a no-op when the version
directory is absent, otherwise a recursive delete. -/
def cleanVersion (env : ToolEnv) (fs : FS) (version : String) : Except String FS :=
  match dataDir env fs with
  | .error e => .error ("failed to get data directory: " ++ e)
  | .ok dd =>
    let versionDir := dd ++ ["kdev", env.name, version]
    if isDirFS fs versionDir then .ok (removeAllFS fs versionDir)
    else .ok fs

/-- Models `Tool.CleanAll` (cache.go): a no-op when the tool's cache root is
absent, otherwise a recursive delete of the whole root. -/
def cleanAll (env : ToolEnv) (fs : FS) : Except String FS :=
  match dataDir env fs with
  | .error e => .error ("failed to get data directory: " ++ e)
  | .ok dd =>
    let toolDir := dd ++ ["kdev", env.name]
    if isDirFS fs toolDir then .ok (removeAllFS fs toolDir)
    else .ok fs

/-- The `--old` loop body of `runToolsClean` (cmd/kdev/tools.go) over the
entries past the first: accumulate each entry's size into the reclaimed
total and remove its version directory. -/
def cleanOldLoop (env : ToolEnv) : FS → List CachedVersion → Except String (FS × Nat)
  | fs, [] => .ok (fs, 0)
  | fs, v :: rest =>
    match cleanVersion env fs v.version with
    | .error e => .error e
    | .ok fs1 =>
      match cleanOldLoop env fs1 rest with
      | .error e => .error e
      | .ok (fs2, n) => .ok (fs2, v.size + n)

/-- Models the `--old` branch of `runToolsClean` for one selected tool: list
the cached versions (descending), keep the first, remove the rest, and
report the bytes reclaimed from the removed entries. -/
def runToolsCleanOld (env : ToolEnv) (fs : FS) : Except String (FS × Nat) :=
  match cachedVersions env fs with
  | .error e => .error ("failed to get cached versions: " ++ e)
  | .ok versions => cleanOldLoop env fs versions.tail

/-- A nonempty string without any whitespace character — the shape of a hex
digest, under which `fetchChecksum` returns a 200 body verbatim. -/
abbrev tokenLike (s : String) : Prop :=
  s ≠ "" ∧ s.toList.all (fun c => !goIsSpace c) = true

/-- Sanity conditions every real filesystem satisfies (afero keeps one
registry entry per path): no duplicate directory or file paths, and no path
that is both a file and a directory. -/
abbrev WellFormedFS (fs : FS) : Prop :=
  fs.dirs.Nodup ∧ (fs.files.map Prod.fst).Nodup ∧
    ∀ p ∈ fs.dirs, p ∉ fs.files.map Prod.fst

/-- One `--old` fold step as it acts on the filesystem: `CleanVersion`
removes the version directory when it exists and is a no-op otherwise. -/
def cleanStep (env : ToolEnv) (dd : FPath) (fs : FS) (v : CachedVersion) : FS :=
  if isDirFS fs (dd ++ ["kdev", env.name, v.version]) then
    removeAllFS fs (dd ++ ["kdev", env.name, v.version])
  else fs

/-- A concrete toy digest function for the example environments: injective
and whitespace-free on whitespace-free input. -/
def exHash (s : String) : String :=
  "h" ++ s

/-- A concrete environment used by example instantiations: a fixed download
URL with a matching checksum document. -/
def exEnv : ToolEnv where
  name := "kubectl"
  net := fun u =>
    if u = "https://dl/kubectl.sha256" then some ⟨200, "hpayload"⟩
    else if u = "https://dl/kubectl" then some ⟨200, "payload"⟩
    else none
  sha256hex := exHash
  untargz := fun _ => none
  downloadURL := fun _ _ _ => "https://dl/kubectl"
  checksumURL := fun _ _ _ => "https://dl/kubectl.sha256"
  goos := "linux"
  goarch := "amd64"
  resolveVersion := .ok "v1.0.0"
  progress := none
  xdgDataHome := some ["data"]
  userHomeDir := .ok ["home", "user"]

/-- A concrete cache filesystem with three cached kubectl versions. -/
def exCacheFS : FS where
  files :=
    [ (["data", "kdev", "kubectl", "v1.2.2", "kubectl"], "aa"),
      (["data", "kdev", "kubectl", "v1.2.10", "kubectl"], "bbb"),
      (["data", "kdev", "kubectl", "v1.2.3", "kubectl"], "c") ]
  dirs :=
    [ ["data"], ["data", "kdev"], ["data", "kdev", "kubectl"],
      ["data", "kdev", "kubectl", "v1.2.2"], ["data", "kdev", "kubectl", "v1.2.10"],
      ["data", "kdev", "kubectl", "v1.2.3"] ]
  modes := []

/-- A concrete environment whose download URL is a tar+gzip archive holding
the tool binary under `dir/cilium`. -/
def exEnvTar : ToolEnv where
  name := "cilium"
  net := fun u =>
    if u = "https://dl/cilium.tar.gz.sha256sum" then some ⟨200, "harchive"⟩
    else if u = "https://dl/cilium.tar.gz" then some ⟨200, "archive"⟩ else none
  sha256hex := exHash
  untargz := fun b =>
    if b = "archive" then some [("dir/readme", "hello"), ("dir/cilium", "binbytes")] else none
  downloadURL := fun _ _ _ => "https://dl/cilium.tar.gz"
  checksumURL := fun _ _ _ => "https://dl/cilium.tar.gz.sha256sum"
  goos := "linux"
  goarch := "amd64"
  resolveVersion := .ok "v1.0.0"
  progress := none
  xdgDataHome := some ["data"]
  userHomeDir := .ok ["home", "user"]

/-! ### Basic lemmas about the filesystem model -/

theorem lookupKey_filter_key {β : Type} (f : FPath → Bool) (l : List (FPath × β)) (q : FPath) :
    lookupKey (l.filter (fun kv => f kv.1)) q = if f q then lookupKey l q else none := by
  induction l with
  | nil => cases hf : f q <;> simp [lookupKey, hf]
  | cons kv t ih =>
    obtain ⟨k, v⟩ := kv
    by_cases hk : k = q
    · subst hk
      cases hf : f k <;> simp [List.filter_cons, hf, lookupKey, ih]
    · cases hf : f k <;> simp [List.filter_cons, hf, lookupKey, hk, ih]

theorem lookupKey_filter_ne {β : Type} (l : List (FPath × β)) (p q : FPath) (h : q ≠ p) :
    lookupKey (l.filter (fun kv => !decide (kv.1 = p))) q = lookupKey l q := by
  have := lookupKey_filter_key (fun k => !decide (k = p)) l q
  simpa [h] using this

theorem lookupKey_filter_self {β : Type} (l : List (FPath × β)) (p : FPath) :
    lookupKey (l.filter (fun kv => !decide (kv.1 = p))) p = none := by
  have := lookupKey_filter_key (fun k => !decide (k = p)) l p
  simpa using this

theorem getFile_createFile_self (fs : FS) (p : FPath) (c : String) :
    getFile (createFile fs p c) p = some c := by
  simp [getFile, createFile, lookupKey]

theorem getFile_createFile_ne (fs : FS) (p q : FPath) (c : String) (h : q ≠ p) :
    getFile (createFile fs p c) q = getFile fs q := by
  simp only [getFile, createFile, lookupKey, if_neg (Ne.symm h)]
  exact lookupKey_filter_ne fs.files p q h

theorem getFile_removeFile_self (fs : FS) (p : FPath) :
    getFile (removeFile fs p) p = none :=
  lookupKey_filter_self fs.files p

theorem getFile_removeFile_ne (fs : FS) (p q : FPath) (h : q ≠ p) :
    getFile (removeFile fs p) q = getFile fs q :=
  lookupKey_filter_ne fs.files p q h

theorem stringMk_toList (s : String) : String.mk s.toList = s := rfl

theorem string_length_ne_of_append_tmp (y : String) : y ++ ".tmp" ≠ y := by
  intro h
  have hl := congrArg String.length h
  have h4 : (".tmp" : String).length = 4 := rfl
  rw [String.length_append, h4] at hl
  omega

theorem tmpPath_ne (p : FPath) (h : p ≠ []) : tmpPath p ≠ p := by
  intro he
  have h1 : p.getLast? = some (p.getLast h) := List.getLast?_eq_getLast p h
  have h2 := congrArg List.getLast? he
  simp only [tmpPath] at h2
  rw [List.getLast?_concat, h1] at h2
  simp only [Option.getD_some, Option.some.injEq] at h2
  exact string_length_ne_of_append_tmp (p.getLast h) h2

/-! ### Lemmas about `pathUnder` and `removeAllFS` -/

theorem pathUnder_iff (p q : FPath) : pathUnder p q = true ↔ ∃ t, p ++ t = q := by
  induction p generalizing q with
  | nil => simp [pathUnder]
  | cons a ps ih =>
    cases q with
    | nil => simp [pathUnder]
    | cons b qs =>
      simp only [pathUnder, Bool.and_eq_true, decide_eq_true_eq, ih]
      constructor
      · rintro ⟨rfl, t, rfl⟩
        exact ⟨t, rfl⟩
      · rintro ⟨t, ht⟩
        simp only [List.cons_append, List.cons.injEq] at ht
        exact ⟨ht.1, t, ht.2⟩

theorem pathUnder_append_self (p t : FPath) : pathUnder p (p ++ t) = true :=
  (pathUnder_iff p (p ++ t)).mpr ⟨t, rfl⟩

theorem pathUnder_length_le (p q : FPath) (h : pathUnder p q = true) : p.length ≤ q.length := by
  obtain ⟨t, rfl⟩ := (pathUnder_iff p q).mp h
  simp

theorem pathUnder_false_of_longer (p q : FPath) (h : q.length < p.length) :
    pathUnder p q = false := by
  cases hp : pathUnder p q with
  | false => rfl
  | true => exact absurd (pathUnder_length_le p q hp) (by omega)

theorem pathUnder_append_left (d p q : FPath) :
    pathUnder (d ++ p) (d ++ q) = pathUnder p q := by
  induction d with
  | nil => rfl
  | cons a t ih => simp [pathUnder, ih]

theorem pathUnder_snoc_cons (d : FPath) (a b : String) (r : FPath) :
    pathUnder (d ++ [a]) (d ++ b :: r) = decide (a = b) := by
  rw [pathUnder_append_left]
  by_cases hab : a = b
  · subst hab
    simp [pathUnder]
  · simp [pathUnder, hab]

theorem isDirFS_eq_true_iff (fs : FS) (q : FPath) : isDirFS fs q = true ↔ q ∈ fs.dirs := by
  simp [isDirFS, List.any_eq_true]

theorem isDirFS_removeAllFS_iff (fs : FS) (p q : FPath) :
    isDirFS (removeAllFS fs p) q = true ↔ (q ∈ fs.dirs ∧ pathUnder p q = false) := by
  rw [isDirFS_eq_true_iff]
  simp [removeAllFS, List.mem_filter, Bool.not_eq_true']

theorem getFile_removeAllFS (fs : FS) (p q : FPath) :
    getFile (removeAllFS fs p) q = if pathUnder p q then none else getFile fs q := by
  have h := lookupKey_filter_key (fun k => !pathUnder p k) fs.files q
  simp only [getFile, removeAllFS] at *
  rw [h]
  cases hc : pathUnder p q <;> simp [hc]

/-! ### Tokens: bodies without whitespace pass `fetchChecksum` verbatim -/

theorem dropWhile_all_neg {p : Char → Bool} :
    ∀ (l : List Char), l.all (fun c => !p c) = true → l.dropWhile p = l
  | [], _ => rfl
  | c :: cs, h => by
    simp only [List.all_cons, Bool.and_eq_true, Bool.not_eq_true'] at h
    simp [List.dropWhile_cons, h.1]

theorem goTrimSpace_tokenLike (s : String) (h : tokenLike s) : goTrimSpace s = s := by
  obtain ⟨hne, hall⟩ := h
  unfold goTrimSpace
  rw [dropWhile_all_neg _ hall, dropWhile_all_neg _ (by simpa using hall)]
  simp [stringMk_toList]

theorem goFieldsAux_all_nonspace :
    ∀ (cs cur : List Char), cs.all (fun c => !goIsSpace c) = true → ¬(cs = [] ∧ cur = []) →
      goFieldsAux cs cur = [String.mk (cur.reverse ++ cs)]
  | [], [], _, h2 => absurd ⟨rfl, rfl⟩ h2
  | [], _ :: _, _, _ => by simp [goFieldsAux]
  | c :: cs, cur, h, _ => by
    simp only [List.all_cons, Bool.and_eq_true, Bool.not_eq_true'] at h
    simp only [goFieldsAux, h.1, Bool.false_eq_true, if_false]
    rw [goFieldsAux_all_nonspace cs (c :: cur) (by simp [h.2]) (by simp)]
    simp

theorem toList_eq_nil_iff (s : String) : s.toList = [] ↔ s = "" := by
  constructor
  · intro h1
    rw [← stringMk_toList s, h1]
  · rintro rfl
    rfl

theorem goFields_tokenLike (s : String) (h : tokenLike s) : goFields s = [s] := by
  obtain ⟨hne, hall⟩ := h
  unfold goFields
  rw [goFieldsAux_all_nonspace s.toList [] hall (by
    rintro ⟨h1, -⟩
    exact hne ((toList_eq_nil_iff s).mp h1))]
  simp [stringMk_toList]

theorem fetchChecksum_tokenLike (net : String → Option HTTPResponse) (url : String)
    (hx : String) (hresp : net url = some ⟨200, hx⟩) (htok : tokenLike hx) :
    fetchChecksum net url = .ok hx := by
  simp [fetchChecksum, hresp, goTrimSpace_tokenLike _ htok, goFields_tokenLike _ htok]

/-! ### Asymmetry of the string order -/

theorem ltChars_asymm : ∀ (as bs : List Char), ltChars as bs = true → ltChars bs as = false
  | [], [], h => absurd h (by decide)
  | [], _ :: _, _ => rfl
  | _ :: _, [], h => by simp [ltChars] at h
  | a :: as, b :: bs, h => by
    by_cases hab : a = b
    · subst hab
      simp only [ltChars, if_pos rfl] at h ⊢
      exact ltChars_asymm as bs h
    · simp only [ltChars, if_neg hab, decide_eq_true_eq] at h
      simp only [ltChars, if_neg (Ne.symm hab), decide_eq_false_iff_not]
      omega

theorem goStrLt_asymm (a b : String) (h : goStrLt a b = true) : goStrLt b a = false :=
  ltChars_asymm a.toList b.toList h

/-! ### The version comparator: value range and antisymmetry -/

theorem compareSegment_mem (a b : Nat) :
    compareSegment a b = -1 ∨ compareSegment a b = 0 ∨ compareSegment a b = 1 := by
  unfold compareSegment
  split
  · exact Or.inl rfl
  · split
    · exact Or.inr (Or.inr rfl)
    · exact Or.inr (Or.inl rfl)

theorem compareSegment_flip (a b : Nat) : compareSegment b a = -compareSegment a b := by
  unfold compareSegment
  by_cases h1 : a < b
  · simp [h1, show ¬ b < a by omega]
  · by_cases h2 : b < a
    · simp [h1, h2]
    · simp [h1, h2]

theorem comparePrePart_self (s : String) : comparePrePart s s = 0 := by
  simp [comparePrePart]

theorem comparePrePart_zero (s o : String) (h : comparePrePart s o = 0) : s = o := by
  by_contra hso
  unfold comparePrePart at h
  rw [if_neg hso] at h
  by_cases hs : s = ""
  · rw [if_pos hs] at h
    have ho : o ≠ "" := fun he => hso (by rw [hs, he])
    rw [if_pos ho] at h
    exact absurd h (by decide)
  · rw [if_neg hs] at h
    by_cases ho : o = ""
    · rw [if_pos ho, if_pos hs] at h
      exact absurd h (by decide)
    · rw [if_neg ho] at h
      by_cases hn : parseGoInt o = none ∧ parseGoInt s = none
      · rw [if_pos hn] at h
        split at h <;> exact absurd h (by decide)
      · rw [if_neg hn] at h
        by_cases h1 : parseGoInt o = none
        · rw [if_pos h1] at h
          exact absurd h (by decide)
        · rw [if_neg h1] at h
          by_cases h2 : parseGoInt s = none
          · rw [if_pos h2] at h
            exact absurd h (by decide)
          · rw [if_neg h2] at h
            split at h <;> exact absurd h (by decide)

theorem comparePrePart_mem (s o : String) :
    comparePrePart s o = -1 ∨ comparePrePart s o = 0 ∨ comparePrePart s o = 1 := by
  unfold comparePrePart
  by_cases hso : s = o
  · simp [hso]
  · rw [if_neg hso]
    by_cases hs : s = ""
    · rw [if_pos hs]
      split
      · exact Or.inl rfl
      · exact Or.inr (Or.inr rfl)
    · rw [if_neg hs]
      by_cases ho : o = ""
      · rw [if_pos ho, if_pos hs]
        exact Or.inr (Or.inr rfl)
      · rw [if_neg ho]
        split
        · split
          · exact Or.inr (Or.inr rfl)
          · exact Or.inl rfl
        · split
          · exact Or.inl rfl
          · split
            · exact Or.inr (Or.inr rfl)
            · split
              · exact Or.inr (Or.inr rfl)
              · exact Or.inl rfl

theorem comparePrePart_one_flip (s o : String) (h : comparePrePart s o = 1) :
    comparePrePart o s = -1 := by
  unfold comparePrePart at h ⊢
  by_cases hso : s = o
  · rw [if_pos hso] at h
    exact absurd h (by decide)
  · rw [if_neg hso] at h
    rw [if_neg (Ne.symm hso)]
    by_cases hs : s = ""
    · rw [if_pos hs] at h
      have ho : o ≠ "" := fun he => hso (by rw [hs, he])
      rw [if_pos ho] at h
      exact absurd h (by decide)
    · rw [if_neg hs] at h
      by_cases ho : o = ""
      · rw [if_pos ho, if_pos hs]
      · rw [if_neg ho] at h
        rw [if_neg ho, if_neg hs]
        by_cases h1 : parseGoInt o = none
        · by_cases h2 : parseGoInt s = none
          · rw [if_pos ⟨h1, h2⟩] at h
            rw [if_pos ⟨h2, h1⟩]
            by_cases hlt : goStrLt o s = true
            · simp [goStrLt_asymm o s hlt]
            · rw [if_neg hlt] at h
              exact absurd h (by decide)
          · rw [if_neg (fun hc => h2 hc.2), if_pos h1] at h
            exact absurd h (by decide)
        · by_cases h2 : parseGoInt s = none
          · rw [if_neg (fun hc => h1 hc.2), if_pos h2]
          · rw [if_neg (fun hc => h1 hc.1), if_neg h1, if_neg h2] at h
            rw [if_neg (fun hc => h2 hc.1), if_neg h2, if_neg h1]
            by_cases hlt : (parseGoInt o).getD 0 < (parseGoInt s).getD 0
            · rw [if_neg (by omega : ¬ (parseGoInt s).getD 0 < (parseGoInt o).getD 0)]
            · rw [if_neg hlt] at h
              exact absurd h (by decide)

theorem comparePrePartsRight_mem :
    ∀ (os : List String), comparePrePartsRight os = -1 ∨ comparePrePartsRight os = 0 ∨
      comparePrePartsRight os = 1
  | [] => Or.inr (Or.inl rfl)
  | o :: os => by
    simp only [comparePrePartsRight]
    split
    · exact comparePrePartsRight_mem os
    · exact comparePrePart_mem "" o

theorem comparePreParts_mem :
    ∀ (ss os : List String), comparePreParts ss os = -1 ∨ comparePreParts ss os = 0 ∨
      comparePreParts ss os = 1
  | [], os => comparePrePartsRight_mem os
  | s :: ss, os => by
    simp only [comparePreParts]
    split
    · exact comparePreParts_mem ss os.tail
    · exact comparePrePart_mem s (os.headD "")

theorem comparePreParts_one_flip :
    ∀ (ss os : List String), comparePreParts ss os = 1 → comparePreParts os ss = -1
  | [], [] => fun h => absurd h (by decide)
  | [], o :: os => by
    intro h
    simp only [comparePreParts, comparePrePartsRight, List.headD_nil, List.tail_nil] at h ⊢
    by_cases hd : comparePrePart "" o = 0
    · rw [if_pos hd] at h
      have ho : "" = o := comparePrePart_zero "" o hd
      have hgoal : comparePrePart o "" = 0 := by
        rw [← ho]
        exact comparePrePart_self ""
      rw [if_pos hgoal]
      exact comparePreParts_one_flip [] os h
    · rw [if_neg hd] at h
      have hflip := comparePrePart_one_flip "" o h
      rw [if_neg (by rw [hflip]; decide)]
      exact hflip
  | s :: ss, [] => by
    intro h
    simp only [comparePreParts, comparePrePartsRight, List.headD_nil, List.tail_nil] at h ⊢
    by_cases hd : comparePrePart s "" = 0
    · rw [if_pos hd] at h
      have hs0 : s = "" := comparePrePart_zero s "" hd
      have hgoal : comparePrePart "" s = 0 := by
        rw [hs0]
        exact comparePrePart_self ""
      rw [if_pos hgoal]
      exact comparePreParts_one_flip ss [] h
    · rw [if_neg hd] at h
      have hflip := comparePrePart_one_flip s "" h
      rw [if_neg (by rw [hflip]; decide)]
      exact hflip
  | s :: ss, o :: os => by
    intro h
    simp only [comparePreParts, List.headD_cons, List.tail_cons] at h ⊢
    by_cases hd : comparePrePart s o = 0
    · rw [if_pos hd] at h
      have hso : s = o := comparePrePart_zero s o hd
      have hgoal : comparePrePart o s = 0 := by
        rw [hso]
        exact comparePrePart_self o
      rw [if_pos hgoal]
      exact comparePreParts_one_flip ss os h
    · rw [if_neg hd] at h
      have hflip := comparePrePart_one_flip s o h
      rw [if_neg (by rw [hflip]; decide)]
      exact hflip
termination_by ss os => ss.length + os.length

theorem comparePrerelease_mem (a b : String) :
    comparePrerelease a b = -1 ∨ comparePrerelease a b = 0 ∨ comparePrerelease a b = 1 :=
  comparePreParts_mem _ _

theorem comparePrerelease_one_flip (a b : String) (h : comparePrerelease a b = 1) :
    comparePrerelease b a = -1 :=
  comparePreParts_one_flip _ _ h

theorem semverCompare_mem (a b : SemVer) :
    semverCompare a b = -1 ∨ semverCompare a b = 0 ∨ semverCompare a b = 1 := by
  simp only [semverCompare]
  split
  · exact compareSegment_mem _ _
  · split
    · exact compareSegment_mem _ _
    · split
      · exact compareSegment_mem _ _
      · split
        · exact Or.inr (Or.inl rfl)
        · split
          · exact Or.inr (Or.inr rfl)
          · split
            · exact Or.inl rfl
            · exact comparePrerelease_mem _ _

theorem semverCompare_one_flip (a b : SemVer) (h : semverCompare a b = 1) :
    semverCompare b a = -1 := by
  simp only [semverCompare] at h ⊢
  rcases compareSegment_mem a.major b.major with hM | hM | hM
  · rw [hM, if_pos (by decide : ((-1 : Int) ≠ 0))] at h
    exact absurd h (by decide)
  · have hM2 : compareSegment b.major a.major = 0 := by
      rw [compareSegment_flip, hM]
      rfl
    rw [hM, if_neg (by decide : ¬((0 : Int) ≠ 0))] at h
    rw [hM2, if_neg (by decide : ¬((0 : Int) ≠ 0))]
    rcases compareSegment_mem a.minor b.minor with hm | hm | hm
    · rw [hm, if_pos (by decide : ((-1 : Int) ≠ 0))] at h
      exact absurd h (by decide)
    · have hm2 : compareSegment b.minor a.minor = 0 := by
        rw [compareSegment_flip, hm]
        rfl
      rw [hm, if_neg (by decide : ¬((0 : Int) ≠ 0))] at h
      rw [hm2, if_neg (by decide : ¬((0 : Int) ≠ 0))]
      rcases compareSegment_mem a.patch b.patch with hp | hp | hp
      · rw [hp, if_pos (by decide : ((-1 : Int) ≠ 0))] at h
        exact absurd h (by decide)
      · have hp2 : compareSegment b.patch a.patch = 0 := by
          rw [compareSegment_flip, hp]
          rfl
        rw [hp, if_neg (by decide : ¬((0 : Int) ≠ 0))] at h
        rw [hp2, if_neg (by decide : ¬((0 : Int) ≠ 0))]
        by_cases ha : a.pre = ""
        · by_cases hb : b.pre = ""
          · rw [if_pos ⟨ha, hb⟩] at h
            exact absurd h (by decide)
          · rw [if_neg (fun hc => hb hc.2), if_pos ha] at h
            rw [if_neg (fun hc => hb hc.1), if_neg hb, if_pos ha]
        · by_cases hb : b.pre = ""
          · rw [if_neg (fun hc => ha hc.1), if_neg ha, if_pos hb] at h
            exact absurd h (by decide)
          · rw [if_neg (fun hc => ha hc.1), if_neg ha, if_neg hb] at h
            rw [if_neg (fun hc => hb hc.1), if_neg hb, if_neg ha]
            exact comparePrerelease_one_flip _ _ h
      · have hp2 : compareSegment b.patch a.patch = -1 := by
          rw [compareSegment_flip, hp]
        rw [hp2, if_pos (by decide : ((-1 : Int) ≠ 0))]
    · have hm2 : compareSegment b.minor a.minor = -1 := by
        rw [compareSegment_flip, hm]
      rw [hm2, if_pos (by decide : ((-1 : Int) ≠ 0))]
  · have hM2 : compareSegment b.major a.major = -1 := by
      rw [compareSegment_flip, hM]
    rw [hM2, if_pos (by decide : ((-1 : Int) ≠ 0))]

theorem compareVersions_mem (v1 v2 : String) :
    compareVersions v1 v2 = -1 ∨ compareVersions v1 v2 = 0 ∨ compareVersions v1 v2 = 1 := by
  unfold compareVersions
  split
  · split
    · exact Or.inr (Or.inr rfl)
    · split
      · exact Or.inl rfl
      · exact Or.inr (Or.inl rfl)
  · exact semverCompare_mem _ _

theorem compareVersions_one_flip (v1 v2 : String) (h : compareVersions v1 v2 = 1) :
    compareVersions v2 v1 = -1 := by
  unfold compareVersions at h ⊢
  by_cases hp : parseSemver v1 = none ∨ parseSemver v2 = none
  · rw [if_pos hp] at h
    rw [if_pos (Or.symm hp)]
    by_cases hlt : goStrLt v2 v1 = true
    · simp [goStrLt_asymm v2 v1 hlt, hlt]
    · rw [if_neg hlt] at h
      split at h
      · exact absurd h (by decide)
      · exact absurd h (by decide)
  · rw [if_neg hp] at h
    rw [if_neg (fun hc => hp (Or.symm hc))]
    exact semverCompare_one_flip _ _ h

theorem versionBefore_asymm (a b : CachedVersion) (h : versionBefore a b) :
    ¬ versionBefore b a := by
  intro h2
  have h1 : compareVersions a.version b.version = 1 := by
    rcases compareVersions_mem a.version b.version with hm | hm | hm <;>
        simp only [versionBefore, hm] at h <;> first | exact absurd h (by decide) | exact hm
  have := compareVersions_one_flip _ _ h1
  simp only [versionBefore, this] at h2
  exact absurd h2 (by decide)

/-! ### Sortedness of insertion sort for an asymmetric comparator -/

theorem chain'_orderedInsert {α : Type} (r : α → α → Prop) [DecidableRel r]
    (hasym : ∀ a b, r a b → ¬ r b a) (a : α) :
    ∀ (l : List α), List.Chain' (fun x y => ¬ r y x) l →
      List.Chain' (fun x y => ¬ r y x) (l.orderedInsert r a)
  | [], _ => by simp [List.orderedInsert]
  | b :: t, hch => by
    by_cases hab : r a b
    · simp only [List.orderedInsert, if_pos hab]
      exact List.Chain'.cons (hasym a b hab) hch
    · simp only [List.orderedInsert, if_neg hab]
      have hrec := chain'_orderedInsert r hasym a t hch.tail
      rw [List.chain'_cons']
      refine ⟨?_, hrec⟩
      intro y hy
      cases t with
      | nil =>
        simp only [List.orderedInsert, List.head?_cons, Option.mem_def,
          Option.some.injEq] at hy
        subst hy
        exact hab
      | cons c t' =>
        simp only [List.orderedInsert] at hy
        by_cases hac : r a c
        · simp only [if_pos hac, List.head?_cons, Option.mem_def, Option.some.injEq] at hy
          subst hy
          exact hab
        · simp only [if_neg hac, List.head?_cons, Option.mem_def, Option.some.injEq] at hy
          subst hy
          exact (List.chain'_cons.mp hch).1

theorem chain'_insertionSort {α : Type} (r : α → α → Prop) [DecidableRel r]
    (hasym : ∀ a b, r a b → ¬ r b a) :
    ∀ (l : List α), List.Chain' (fun x y => ¬ r y x) (l.insertionSort r)
  | [] => by simp [List.insertionSort]
  | a :: t => by
    simp only [List.insertionSort]
    exact chain'_orderedInsert r hasym a _ (chain'_insertionSort r hasym t)

theorem sortCachedVersions_chain' (l : List CachedVersion) :
    List.Chain' (fun x y => ¬ versionBefore y x) (sortCachedVersions l) :=
  chain'_insertionSort versionBefore versionBefore_asymm l

theorem sortCachedVersions_perm (l : List CachedVersion) :
    List.Perm (sortCachedVersions l) l :=
  List.perm_insertionSort versionBefore l

/-! ### Claim theorems: checksum fetching, the download pipeline -/

/-- C6: for every 200 response, `fetchChecksum` returns the first
whitespace-delimited token of the whitespace-trimmed body (the token of a
`"<hex>  <filename>"` document is the hex part), and a body that is empty
after trimming yields the empty string with no error. -/
theorem c6_fetchChecksum_first_token (net : String → Option HTTPResponse) (url : String)
    (resp : HTTPResponse) (hresp : net url = some resp) (hstatus : resp.status = 200) :
    fetchChecksum net url =
      .ok ((goFields (goTrimSpace resp.body)).headD (goTrimSpace resp.body)) ∧
    (goTrimSpace resp.body = "" → fetchChecksum net url = .ok "") := by
  have hmain : fetchChecksum net url =
      .ok ((goFields (goTrimSpace resp.body)).headD (goTrimSpace resp.body)) := by
    simp only [fetchChecksum, hresp, hstatus]
    rw [if_neg (by decide : ¬ ((200 : Nat) ≠ 200))]
    cases hf : goFields (goTrimSpace resp.body) with
    | nil => simp [hf]
    | cons t ts => simp [hf]
  refine ⟨hmain, fun hempty => ?_⟩
  rw [hmain, hempty]
  rfl

/-- C6 witness: a `"<hex>  <filename>"` body yields the hex token, and a
whitespace-only body yields the empty string. -/
theorem c6_fetchChecksum_first_token_witness :
    fetchChecksum (fun _ => some ⟨200, "abc123  kubectl.sha256"⟩) "u" = .ok "abc123" ∧
    fetchChecksum (fun _ => some ⟨200, "  "⟩) "u" = .ok "" := by
  constructor
  · have h := (c6_fetchChecksum_first_token (fun _ => some ⟨200, "abc123  kubectl.sha256"⟩)
      "u" ⟨200, "abc123  kubectl.sha256"⟩ rfl rfl).1
    rw [h]
    rfl
  · have h := (c6_fetchChecksum_first_token (fun _ => some ⟨200, "  "⟩)
      "u" ⟨200, "  "⟩ rfl rfl).2 (by rfl)
    exact h

/-- C7: `DataDir` returns the override environment variable verbatim when it
is set and non-empty; otherwise `<home>/.local/share` when that directory
exists, else `<home>/.kdev`; it fails exactly when the home directory is
undeterminable.  The embedding only reads the filesystem, so no directory is
created. -/
theorem c7_dataDir_priority (env : ToolEnv) (fs : FS) :
    (∀ p, env.xdgDataHome = some p → dataDir env fs = .ok p) ∧
    (∀ home, env.xdgDataHome = none → env.userHomeDir = .ok home →
      (isDirFS fs (home ++ [".local", "share"]) = true →
        dataDir env fs = .ok (home ++ [".local", "share"])) ∧
      (isDirFS fs (home ++ [".local", "share"]) = false →
        dataDir env fs = .ok (home ++ [".kdev"]))) ∧
    (∀ e, env.xdgDataHome = none → env.userHomeDir = .error e →
      dataDir env fs = .error e) := by
  refine ⟨?_, ?_, ?_⟩
  · intro p hp
    simp [dataDir, hp]
  · intro home hx hh
    constructor
    · intro hdir
      simp [dataDir, hx, hh, hdir]
    · intro hdir
      simp [dataDir, hx, hh, hdir]
  · intro e hx he
    simp [dataDir, hx, he]

/-- C7 witness: all four behaviors at concrete environments. -/
theorem c7_dataDir_priority_witness :
    dataDir exEnv exCacheFS = .ok ["data"] ∧
    dataDir { exEnv with xdgDataHome := none, userHomeDir := .ok ["home"] }
      ⟨[], [["home", ".local", "share"]], []⟩ = .ok ["home", ".local", "share"] ∧
    dataDir { exEnv with xdgDataHome := none, userHomeDir := .ok ["home"] }
      ⟨[], [], []⟩ = .ok ["home", ".kdev"] ∧
    dataDir { exEnv with xdgDataHome := none, userHomeDir := .error "no home" }
      ⟨[], [], []⟩ = .error "no home" := by
  refine ⟨?_, ?_, ?_, ?_⟩
  · exact (c7_dataDir_priority exEnv exCacheFS).1 ["data"] rfl
  · exact ((c7_dataDir_priority _ _).2.1 ["home"] rfl rfl).1 (by rfl)
  · exact ((c7_dataDir_priority _ _).2.1 ["home"] rfl rfl).2 (by rfl)
  · exact (c7_dataDir_priority _ _).2.2 "no home" rfl rfl

/-- C1: whenever the fetched expected checksum differs from the hex digest
of the downloaded bytes, `download` fails with an error stating both values
and leaves no file at `destPath + ".tmp"`. -/
theorem c1_checksum_mismatch (env : ToolEnv) (w : World) (destPath : FPath) (version : String)
    (fs1 : FS) (expected : String) (resp : HTTPResponse)
    (hmk : mkdirAll w.fs destPath.dropLast = .ok fs1)
    (hcs : fetchChecksum env.net (env.checksumURL version env.goos env.goarch) = .ok expected)
    (hnet : env.net (env.downloadURL version env.goos env.goarch) = some resp)
    (hstatus : resp.status = 200)
    (hne : env.sha256hex resp.body ≠ expected) :
    (download env w destPath version).2 =
      some ("checksum mismatch: expected " ++ expected ++ ", got " ++ env.sha256hex resp.body) ∧
    getFile (download env w destPath version).1.fs (tmpPath destPath) = none := by
  simp only [download, hmk, hcs, hnet, hstatus]
  rw [if_neg (by decide : ¬ ((200 : Nat) ≠ 200)), if_pos hne]
  exact ⟨rfl, getFile_removeFile_self _ _⟩

/-- C1 witness: a checksum endpoint answering `zz` against a body hashing to
`hpayload` makes `download` fail with both values in the message and no
temp file behind. -/
theorem c1_checksum_mismatch_witness :
    (download { exEnv with
        net := fun u =>
          if u = "https://dl/kubectl.sha256" then some ⟨200, "zz"⟩
          else if u = "https://dl/kubectl" then some ⟨200, "payload"⟩ else none }
      ⟨⟨[], [], []⟩, [], []⟩ ["data", "kdev", "kubectl", "v1.0.0", "kubectl"] "v1.0.0").2 =
      some "checksum mismatch: expected zz, got hpayload" ∧
    getFile (download { exEnv with
        net := fun u =>
          if u = "https://dl/kubectl.sha256" then some ⟨200, "zz"⟩
          else if u = "https://dl/kubectl" then some ⟨200, "payload"⟩ else none }
      ⟨⟨[], [], []⟩, [], []⟩ ["data", "kdev", "kubectl", "v1.0.0", "kubectl"] "v1.0.0").1.fs
      ["data", "kdev", "kubectl", "v1.0.0", "kubectl.tmp"] = none := by
  have h := c1_checksum_mismatch
    { exEnv with
        net := fun u =>
          if u = "https://dl/kubectl.sha256" then some ⟨200, "zz"⟩
          else if u = "https://dl/kubectl" then some ⟨200, "payload"⟩ else none }
    ⟨⟨[], [], []⟩, [], []⟩ ["data", "kdev", "kubectl", "v1.0.0", "kubectl"] "v1.0.0"
    ((mkdirAll (⟨[], [], []⟩ : FS) ["data", "kdev", "kubectl", "v1.0.0"]).toOption.getD
      ⟨[], [], []⟩)
    "zz" ⟨200, "payload"⟩ (by rfl) (by rfl) (by rfl) (by rfl) (by decide)
  exact h

/-- C2: when the checksum endpoint answers 200 with the digest of `C`, the
binary endpoint answers 200 with `C`, and the URL is not an archive,
`download` succeeds, `destPath` holds exactly `C`, and no temp file
remains. -/
theorem c2_roundtrip_integrity (env : ToolEnv) (w : World) (destPath : FPath) (version : String)
    (fs1 : FS) (C : String)
    (hne0 : destPath ≠ [])
    (hmk : mkdirAll w.fs destPath.dropLast = .ok fs1)
    (hcs : env.net (env.checksumURL version env.goos env.goarch) =
      some ⟨200, env.sha256hex C⟩)
    (htok : tokenLike (env.sha256hex C))
    (hnet : env.net (env.downloadURL version env.goos env.goarch) = some ⟨200, C⟩)
    (harc : goHasSuffix (env.downloadURL version env.goos env.goarch) ".tar.gz" = false) :
    (download env w destPath version).2 = none ∧
    getFile (download env w destPath version).1.fs destPath = some C ∧
    getFile (download env w destPath version).1.fs (tmpPath destPath) = none := by
  have hfc := fetchChecksum_tokenLike env.net _ _ hcs htok
  have hdne : destPath ≠ tmpPath destPath := Ne.symm (tmpPath_ne destPath hne0)
  simp only [download, hmk, hfc, hnet]
  rw [if_neg (by decide : ¬ ((200 : Nat) ≠ 200)), if_neg (by simp), harc]
  simp only [Bool.false_eq_true, if_false, renameFile, getFile_createFile_self]
  refine ⟨trivial, ?_, getFile_removeFile_self _ _⟩
  rw [getFile_removeFile_ne _ _ _ hdne, getFile_createFile_self]

/-- C2 witness: the `exEnv` round trip stores `payload` at the destination
with no temp file left. -/
theorem c2_roundtrip_integrity_witness :
    (download exEnv ⟨⟨[], [], []⟩, [], []⟩
      ["data", "kdev", "kubectl", "v1.0.0", "kubectl"] "v1.0.0").2 = none ∧
    getFile (download exEnv ⟨⟨[], [], []⟩, [], []⟩
      ["data", "kdev", "kubectl", "v1.0.0", "kubectl"] "v1.0.0").1.fs
      ["data", "kdev", "kubectl", "v1.0.0", "kubectl"] = some "payload" ∧
    getFile (download exEnv ⟨⟨[], [], []⟩, [], []⟩
      ["data", "kdev", "kubectl", "v1.0.0", "kubectl"] "v1.0.0").1.fs
      ["data", "kdev", "kubectl", "v1.0.0", "kubectl.tmp"] = none := by
  have h := c2_roundtrip_integrity exEnv ⟨⟨[], [], []⟩, [], []⟩
    ["data", "kdev", "kubectl", "v1.0.0", "kubectl"] "v1.0.0"
    ((mkdirAll (⟨[], [], []⟩ : FS) ["data", "kdev", "kubectl", "v1.0.0"]).toOption.getD
      ⟨[], [], []⟩)
    "payload" (by decide) (by rfl) (by rfl) (by decide) (by rfl) (by rfl)
  exact h

/-- C5: on a matching checksum for a `.tar.gz` URL, `download` extracts the
first archive entry whose base filename equals the tool name to `destPath`
and removes the temp archive; with no matching entry it fails with the
"binary not found in archive" error and no temp archive remains. -/
theorem c5_archive_extraction (env : ToolEnv) (w : World) (destPath : FPath) (version : String)
    (fs1 : FS) (expected B : String) (entries : List (String × String))
    (hne0 : destPath ≠ [])
    (hmk : mkdirAll w.fs destPath.dropLast = .ok fs1)
    (hcs : fetchChecksum env.net (env.checksumURL version env.goos env.goarch) = .ok expected)
    (hnet : env.net (env.downloadURL version env.goos env.goarch) = some ⟨200, B⟩)
    (hhash : env.sha256hex B = expected)
    (harc : goHasSuffix (env.downloadURL version env.goos env.goarch) ".tar.gz" = true)
    (huntar : env.untargz B = some entries) :
    (∀ ent, entries.find? (fun e => goFilepathBase e.1 == env.name) = some ent →
      (download env w destPath version).2 = none ∧
      getFile (download env w destPath version).1.fs destPath = some ent.2 ∧
      getFile (download env w destPath version).1.fs (tmpPath destPath) = none) ∧
    (entries.find? (fun e => goFilepathBase e.1 == env.name) = none →
      (download env w destPath version).2 =
        some ("failed to extract archive: " ++
          ("binary " ++ env.name ++ " not found in archive")) ∧
      getFile (download env w destPath version).1.fs (tmpPath destPath) = none) := by
  have hdne : destPath ≠ tmpPath destPath := Ne.symm (tmpPath_ne destPath hne0)
  constructor
  · intro ent hfind
    simp only [download, hmk, hcs, hnet]
    rw [if_neg (by decide : ¬ ((200 : Nat) ≠ 200)), if_neg (by simp [hhash]), harc]
    simp only [if_true, extractTarGzFile, getFile_createFile_self, huntar, hfind]
    refine ⟨trivial, ?_, getFile_removeFile_self _ _⟩
    rw [getFile_removeFile_ne _ _ _ hdne, getFile_removeFile_ne _ _ _ hdne,
      getFile_createFile_self]
  · intro hfind
    simp only [download, hmk, hcs, hnet]
    rw [if_neg (by decide : ¬ ((200 : Nat) ≠ 200)), if_neg (by simp [hhash]), harc]
    simp only [if_true, extractTarGzFile, getFile_createFile_self, huntar, hfind]
    exact ⟨trivial, getFile_removeFile_self _ _⟩

/-- C5 witness: a two-entry archive whose `dir/cilium` entry matches the
tool extracts those bytes; an archive with no matching base name fails with
the distinct error, and in both cases no temp archive remains. -/
theorem c5_archive_extraction_witness :
    ((download exEnvTar ⟨⟨[], [], []⟩, [], []⟩
        ["data", "kdev", "cilium", "v1.0.0", "cilium"] "v1.0.0").2 = none ∧
      getFile (download exEnvTar ⟨⟨[], [], []⟩, [], []⟩
        ["data", "kdev", "cilium", "v1.0.0", "cilium"] "v1.0.0").1.fs
        ["data", "kdev", "cilium", "v1.0.0", "cilium"] = some "binbytes" ∧
      getFile (download exEnvTar ⟨⟨[], [], []⟩, [], []⟩
        ["data", "kdev", "cilium", "v1.0.0", "cilium"] "v1.0.0").1.fs
        ["data", "kdev", "cilium", "v1.0.0", "cilium.tmp"] = none) ∧
    ((download { exEnvTar with name := "hubble" } ⟨⟨[], [], []⟩, [], []⟩
        ["data", "kdev", "hubble", "v1.0.0", "hubble"] "v1.0.0").2 =
        some "failed to extract archive: binary hubble not found in archive" ∧
      getFile (download { exEnvTar with name := "hubble" } ⟨⟨[], [], []⟩, [], []⟩
        ["data", "kdev", "hubble", "v1.0.0", "hubble"] "v1.0.0").1.fs
        ["data", "kdev", "hubble", "v1.0.0", "hubble.tmp"] = none) := by
  constructor
  · have h := (c5_archive_extraction exEnvTar ⟨⟨[], [], []⟩, [], []⟩
      ["data", "kdev", "cilium", "v1.0.0", "cilium"] "v1.0.0"
      ((mkdirAll (⟨[], [], []⟩ : FS) ["data", "kdev", "cilium", "v1.0.0"]).toOption.getD
        ⟨[], [], []⟩)
      "harchive" "archive" [("dir/readme", "hello"), ("dir/cilium", "binbytes")]
      (by decide) (by rfl) (by rfl) (by rfl) (by rfl) (by rfl) (by rfl)).1
      ("dir/cilium", "binbytes") (by rfl)
    exact h
  · have h := (c5_archive_extraction { exEnvTar with name := "hubble" } ⟨⟨[], [], []⟩, [], []⟩
      ["data", "kdev", "hubble", "v1.0.0", "hubble"] "v1.0.0"
      ((mkdirAll (⟨[], [], []⟩ : FS) ["data", "kdev", "hubble", "v1.0.0"]).toOption.getD
        ⟨[], [], []⟩)
      "harchive" "archive" [("dir/readme", "hello"), ("dir/cilium", "binbytes")]
      (by decide) (by rfl) (by rfl) (by rfl) (by rfl) (by rfl) (by rfl)).2 (by rfl)
    exact h

/-! ### Claim theorems: launcher and pre-download cache hits, progress sink -/

/-- C3: on a cache hit the launcher's `prepareExec` performs no download and
issues no request (the request log and progress log are unchanged — in
particular the download URL is never requested), and it still applies chmod
`0755` to the cached binary before returning its path and argv. -/
theorem c3_cache_hit_no_download (env : ToolEnv) (w : World) (args : List String)
    (dd : FPath) (version : String)
    (hdd : env.xdgDataHome = some dd)
    (hver : env.resolveVersion = .ok version)
    (hbin : existsFile w.fs (binPathOf dd env.name version) = true) :
    prepareExec env w args =
      ({ w with fs := setMode w.fs (binPathOf dd env.name version) 0o755 },
       .ok (binPathOf dd env.name version, env.name :: args)) := by
  simp only [prepareExec, dataDir, hdd, hver, hbin, finishExec, chmodFS, if_true,
    Bool.true_or, if_pos]

/-- C3 witness: with `v1.2.2` cached, `prepareExec` returns the cached path
with mode `0755` set and the world otherwise untouched. -/
theorem c3_cache_hit_no_download_witness :
    prepareExec { exEnv with resolveVersion := .ok "v1.2.2" } ⟨exCacheFS, [], []⟩ ["get"] =
      ({ fs := setMode exCacheFS ["data", "kdev", "kubectl", "v1.2.2", "kubectl"] 0o755,
         requests := [], progressLog := [] },
       .ok (["data", "kdev", "kubectl", "v1.2.2", "kubectl"], ["kubectl", "get"])) := by
  have h := c3_cache_hit_no_download { exEnv with resolveVersion := .ok "v1.2.2" }
    ⟨exCacheFS, [], []⟩ ["get"] ["data"] "v1.2.2" rfl rfl (by decide)
  exact h

/-- C10: the pre-download `Tool.Download` returns success immediately on a
cache hit: the world is entirely unchanged — no request issued by its code,
no progress message written, and no chmod applied to the existing file. -/
theorem c10_predownload_cache_hit (env : ToolEnv) (w : World) (dd : FPath) (version : String)
    (hdd : env.xdgDataHome = some dd)
    (hver : env.resolveVersion = .ok version)
    (hbin : existsFile w.fs (binPathOf dd env.name version) = true) :
    toolDownload env w = (w, none) := by
  simp only [toolDownload, dataDir, hdd, hver, hbin, if_true]

/-- C10 witness: `Tool.Download` on the cached `v1.2.2` leaves the world
untouched, even with a progress sink configured. -/
theorem c10_predownload_cache_hit_witness :
    toolDownload
      { exEnv with
          resolveVersion := .ok "v1.2.2"
          progress := some (fun _ => true) }
      ⟨exCacheFS, [], []⟩ = (⟨exCacheFS, [], []⟩, none) :=
  c10_predownload_cache_hit
    { exEnv with
        resolveVersion := .ok "v1.2.2"
        progress := some (fun _ => true) }
    ⟨exCacheFS, [], []⟩ ["data"] "v1.2.2" rfl rfl (by decide)

/-- C8: on the cache-miss path with a configured progress sink, a failed
write of either the "downloading" or the "downloaded" message makes
`prepareExec` fail, and `Exec` therefore never reaches the process
replacement. -/
theorem c8_progress_write_failure (env : ToolEnv) (w : World) (args : List String)
    (dd : FPath) (version : String) (f : String → Bool)
    (hdd : env.xdgDataHome = some dd)
    (hver : env.resolveVersion = .ok version)
    (hbin : existsFile w.fs (binPathOf dd env.name version) = false)
    (hsink : env.progress = some f) :
    (f (downloadingMsg env.name version) = false →
      prepareExec env w args = (w, .error "failed to write progress") ∧
      (toolExec env w args).2 = .error "failed to write progress") ∧
    (∀ w2, f (downloadingMsg env.name version) = true →
      download env { w with progressLog := w.progressLog ++ [downloadingMsg env.name version] }
        (binPathOf dd env.name version) version = (w2, none) →
      f (downloadedMsg env.name version) = false →
      prepareExec env w args = (w2, .error "failed to write progress") ∧
      (toolExec env w args).2 = .error "failed to write progress") := by
  constructor
  · intro hf1
    have hp : prepareExec env w args = (w, .error "failed to write progress") := by
      simp only [prepareExec, dataDir, hdd, hver, hbin, writeProgress, hsink, hf1,
        Bool.false_eq_true, if_false]
    exact ⟨hp, by simp only [toolExec, hp]⟩
  · intro w2 hf1 hdl hf2
    have hp : prepareExec env w args = (w2, .error "failed to write progress") := by
      simp only [prepareExec, dataDir, hdd, hver, hbin, writeProgress, hsink, hf1,
        Bool.false_eq_true, if_false, if_true, hdl, hf2]
    exact ⟨hp, by simp only [toolExec, hp]⟩

/-- C8 witness: both failure points at concrete worlds — a sink that always
fails, and one that accepts only the first message. -/
theorem c8_progress_write_failure_witness :
    (prepareExec { exEnv with progress := some (fun _ => false) }
      ⟨⟨[], [], []⟩, [], []⟩ []).2 = .error "failed to write progress" ∧
    (prepareExec { exEnv with progress := some (fun m => m == downloadingMsg "kubectl" "v1.0.0") }
      ⟨⟨[], [], []⟩, [], []⟩ []).2 = .error "failed to write progress" := by
  constructor
  · have h := ((c8_progress_write_failure { exEnv with progress := some (fun _ => false) }
      ⟨⟨[], [], []⟩, [], []⟩ [] ["data"] "v1.0.0" (fun _ => false)
      rfl rfl (by decide) rfl).1 (by rfl)).1
    rw [h]
  · have h := ((c8_progress_write_failure
      { exEnv with progress := some (fun m => m == downloadingMsg "kubectl" "v1.0.0") }
      ⟨⟨[], [], []⟩, [], []⟩ [] ["data"] "v1.0.0"
      (fun m => m == downloadingMsg "kubectl" "v1.0.0")
      rfl rfl (by decide) rfl).2
      (download { exEnv with progress := some (fun m => m == downloadingMsg "kubectl" "v1.0.0") }
        ⟨⟨[], [], []⟩, [], [downloadingMsg "kubectl" "v1.0.0"]⟩
        (binPathOf ["data"] "kubectl" "v1.0.0") "v1.0.0").1
      (by rfl) (by rfl) (by rfl)).1
    rw [h]

/-! ### Claim theorem: sort order of cached versions -/

/-- C4: `CachedVersions` sorts descending with semantic-version comparison
when both sides parse and raw string comparison otherwise: the cache
`{v1.2.2, v1.2.10, v1.2.3}` lists as `[v1.2.10, v1.2.3, v1.2.2]` (semantic,
not lexicographic), non-parsing `["latest", "dev"]` falls back to string
order, and in general the sort emits a permutation of its input that is
adjacently ordered under the `compareVersions` comparator. -/
theorem c4_sort_descending :
    cachedVersions exEnv exCacheFS =
      .ok [⟨"v1.2.10", ["data", "kdev", "kubectl", "v1.2.10", "kubectl"], 3⟩,
           ⟨"v1.2.3", ["data", "kdev", "kubectl", "v1.2.3", "kubectl"], 1⟩,
           ⟨"v1.2.2", ["data", "kdev", "kubectl", "v1.2.2", "kubectl"], 2⟩] ∧
    (sortCachedVersions [⟨"v1.2.2", [], 0⟩, ⟨"v1.2.10", [], 0⟩, ⟨"v1.2.3", [], 0⟩]).map
        (fun e => e.version) = ["v1.2.10", "v1.2.3", "v1.2.2"] ∧
    (sortCachedVersions [⟨"latest", [], 0⟩, ⟨"dev", [], 0⟩]).map
        (fun e => e.version) = ["latest", "dev"] ∧
    ∀ l : List CachedVersion,
      List.Chain' (fun x y => ¬ versionBefore y x) (sortCachedVersions l) ∧
      List.Perm (sortCachedVersions l) l :=
  ⟨by rfl, by rfl, by rfl,
    fun l => ⟨sortCachedVersions_chain' l, sortCachedVersions_perm l⟩⟩

/-! ### Generic list lemmas for the cache-pruning argument -/

theorem map_fst_filter_key {β : Type} (f : FPath → Bool) :
    ∀ (l : List (FPath × β)),
      (l.filter (fun kv => f kv.1)).map Prod.fst = (l.map Prod.fst).filter f
  | [] => rfl
  | kv :: t => by
    cases hf : f kv.1 <;>
      simp [List.filter_cons, hf, map_fst_filter_key f t]

theorem filterMap_filter_comm {α β : Type} (f : α → Option β) (p : α → Bool) (q : β → Bool)
    (h : ∀ a b, f a = some b → p a = q b) :
    ∀ (l : List α), (l.filter p).filterMap f = (l.filterMap f).filter q
  | [] => rfl
  | a :: l => by
    rcases hf : f a with _ | b
    · cases hp : p a <;>
        simp [List.filter_cons, List.filterMap_cons, hp, hf, filterMap_filter_comm f p q h l]
    · have hpq := h a b hf
      cases hp : p a <;>
        simp [List.filter_cons, List.filterMap_cons, hp, hf, ← hpq,
          filterMap_filter_comm f p q h l]

theorem filterMap_congr_mem {α β : Type} {f g : α → Option β} :
    ∀ {l : List α}, (∀ a ∈ l, f a = g a) → l.filterMap f = l.filterMap g
  | [], _ => rfl
  | a :: l, h => by
    simp only [List.filterMap_cons, h a (by simp)]
    rw [filterMap_congr_mem (fun x hx => h x (by simp [hx]))]

theorem nodup_filterMap_keyed {β : Type} {h : String → Option β} {ver : β → String}
    (hv : ∀ n e, h n = some e → ver e = n) :
    ∀ (names : List String), names.Nodup → ((names.filterMap h).map ver).Nodup := by
  intro names
  induction names with
  | nil => intro _; simp
  | cons n ns ih =>
    intro hnd
    rcases hn : h n with _ | e
    · simpa [List.filterMap_cons, hn] using ih hnd.of_cons
    · simp only [List.filterMap_cons, hn, List.map_cons, List.nodup_cons]
      refine ⟨?_, ih hnd.of_cons⟩
      intro hmem
      rcases List.mem_map.mp hmem with ⟨e2, he2, hve⟩
      rcases List.mem_filterMap.mp he2 with ⟨m, hm, hme⟩
      have : m = n := by rw [← hv m e2 hme, hve, hv n e hn]
      subst this
      exact (List.nodup_cons.mp hnd).1 hm

theorem perm_eq_singleton {α : Type} {l : List α} {a : α} (h : List.Perm l [a]) : l = [a] := by
  have hlen : l.length = 1 := by simpa using h.length_eq
  rcases List.length_eq_one.mp hlen with ⟨b, rfl⟩
  have : b ∈ [a] := h.mem_iff.mp (by simp)
  simp only [List.mem_singleton] at this
  rw [this]

/-! ### Directory listings under `removeAllFS` -/

theorem extract_eq_some (d x : FPath) (n : String)
    (h : (if decide (x.length = d.length + 1) && pathUnder d x then x.getLast? else none) =
      some n) : x = d ++ [n] := by
  by_cases hc : (decide (x.length = d.length + 1) && pathUnder d x) = true
  · rw [if_pos hc] at h
    rw [Bool.and_eq_true] at hc
    obtain ⟨hlen, hund⟩ := hc
    rcases (pathUnder_iff d x).mp hund with ⟨t, rfl⟩
    have hlen2 : t.length = 1 := by
      simp only [decide_eq_true_eq, List.length_append] at hlen
      omega
    rcases List.length_eq_one.mp hlen2 with ⟨m, rfl⟩
    rw [List.getLast?_concat] at h
    simp only [Option.some.injEq] at h
    rw [h]
  · rw [if_neg hc] at h
    exact absurd h (by simp)

theorem childNamesRaw_removeAllFS (fs : FS) (d : FPath) (c : String) :
    childNamesRaw (removeAllFS fs (d ++ [c])) d =
      (childNamesRaw fs d).filter (fun n => !(n == c)) := by
  unfold childNamesRaw
  have hfiles : (removeAllFS fs (d ++ [c])).files.map Prod.fst =
      (fs.files.map Prod.fst).filter (fun q => !pathUnder (d ++ [c]) q) := by
    show (fs.files.filter (fun kv => !pathUnder (d ++ [c]) kv.1)).map Prod.fst = _
    exact map_fst_filter_key (fun q => !pathUnder (d ++ [c]) q) fs.files
  have hdirs : (removeAllFS fs (d ++ [c])).dirs =
      fs.dirs.filter (fun q => !pathUnder (d ++ [c]) q) := rfl
  rw [hdirs, hfiles, ← List.filter_append]
  exact filterMap_filter_comm _ _ _ (by
    intro x n hx
    have hxe := extract_eq_some d x n hx
    subst hxe
    have hpu : pathUnder (d ++ [c]) (d ++ [n]) = decide (c = n) := pathUnder_snoc_cons d c n []
    rw [hpu]
    by_cases hnc : n = c
    · subst hnc
      simp
    · simp [hnc, Ne.symm hnc]) _

theorem isDirFS_removeAllFS (fs : FS) (p q : FPath) :
    isDirFS (removeAllFS fs p) q = (isDirFS fs q && !pathUnder p q) := by
  rw [Bool.eq_iff_iff, isDirFS_removeAllFS_iff, Bool.and_eq_true, Bool.not_eq_true',
    isDirFS_eq_true_iff]

theorem collectEntries_eq (env : ToolEnv) (fs : FS) (toolDir : FPath) :
    collectEntries env fs toolDir =
      (sortStrings (childNamesRaw fs toolDir)).filterMap
        (fun n => entryOf env fs toolDir ⟨n, isDirFS fs (toolDir ++ [n])⟩) := by
  unfold collectEntries readDir
  rw [List.filterMap_map]
  rfl

theorem entryOf_version (env : ToolEnv) (fs : FS) (toolDir : FPath) (de : DirEntry)
    (e : CachedVersion) (h : entryOf env fs toolDir de = some e) : e.version = de.name := by
  unfold entryOf at h
  by_cases hd : de.isDir = true
  · rw [if_pos hd] at h
    obtain ⟨c, _, he⟩ := Option.map_eq_some'.mp h
    rw [← he]
  · rw [if_neg hd] at h
    exact absurd h (by simp)

theorem mem_collectEntries_isDir (env : ToolEnv) (fs : FS) (toolDir : FPath)
    (e : CachedVersion) (h : e ∈ collectEntries env fs toolDir) :
    isDirFS fs (toolDir ++ [e.version]) = true := by
  rw [collectEntries_eq] at h
  obtain ⟨n, _, he⟩ := List.mem_filterMap.mp h
  have hv : e.version = n := entryOf_version env fs toolDir _ e he
  unfold entryOf at he
  by_cases hd : isDirFS fs (toolDir ++ [n]) = true
  · rw [hv]
    exact hd
  · dsimp only at he
    rw [if_neg hd] at he
    exact absurd he (by simp)

theorem collect_removeAll_perm (env : ToolEnv) (fs : FS) (toolDir : FPath) (c : String) :
    List.Perm (collectEntries env (removeAllFS fs (toolDir ++ [c])) toolDir)
      ((collectEntries env fs toolDir).filter (fun e => !(e.version == c))) := by
  rw [collectEntries_eq, collectEntries_eq]
  have s2 := childNamesRaw_removeAllFS fs toolDir c
  have s3 : ((childNamesRaw fs toolDir).filter (fun n => !(n == c))).filterMap
        (fun n => entryOf env (removeAllFS fs (toolDir ++ [c])) toolDir
          ⟨n, isDirFS (removeAllFS fs (toolDir ++ [c])) (toolDir ++ [n])⟩) =
      ((childNamesRaw fs toolDir).filter (fun n => !(n == c))).filterMap
        (fun n => entryOf env fs toolDir ⟨n, isDirFS fs (toolDir ++ [n])⟩) := by
    apply filterMap_congr_mem
    intro n hn
    have hne : (n == c) = false := by
      have h2 := (List.mem_filter.mp hn).2
      simpa using h2
    have hnec : ¬ (c = n) := by
      intro hcn
      rw [hcn] at hne
      simp at hne
    have hdir : isDirFS (removeAllFS fs (toolDir ++ [c])) (toolDir ++ [n]) =
        isDirFS fs (toolDir ++ [n]) := by
      rw [isDirFS_removeAllFS]
      have hpu : pathUnder (toolDir ++ [c]) (toolDir ++ [n]) = false := by
        rw [pathUnder_snoc_cons toolDir c n []]
        simp [hnec]
      rw [hpu]
      simp
    have hfile : getFile (removeAllFS fs (toolDir ++ [c])) (toolDir ++ [n, env.name]) =
        getFile fs (toolDir ++ [n, env.name]) := by
      rw [getFile_removeAllFS]
      have hpu : pathUnder (toolDir ++ [c]) (toolDir ++ [n, env.name]) = false := by
        rw [show toolDir ++ [n, env.name] = toolDir ++ n :: [env.name] from rfl,
          pathUnder_snoc_cons toolDir c n [env.name]]
        simp [hnec]
      rw [hpu]
      simp
    simp only [entryOf, hdir, hfile]
  have s4 : ((childNamesRaw fs toolDir).filter (fun n => !(n == c))).filterMap
        (fun n => entryOf env fs toolDir ⟨n, isDirFS fs (toolDir ++ [n])⟩) =
      ((childNamesRaw fs toolDir).filterMap
        (fun n => entryOf env fs toolDir ⟨n, isDirFS fs (toolDir ++ [n])⟩)).filter
        (fun e => !(e.version == c)) := by
    apply filterMap_filter_comm
    intro n e hne
    have hv : e.version = n := entryOf_version env fs toolDir _ e hne
    rw [hv]
  have s1 : List.Perm
      ((sortStrings (childNamesRaw (removeAllFS fs (toolDir ++ [c])) toolDir)).filterMap
        (fun n => entryOf env (removeAllFS fs (toolDir ++ [c])) toolDir
          ⟨n, isDirFS (removeAllFS fs (toolDir ++ [c])) (toolDir ++ [n])⟩))
      (((childNamesRaw fs toolDir).filter (fun n => !(n == c))).filterMap
        (fun n => entryOf env (removeAllFS fs (toolDir ++ [c])) toolDir
          ⟨n, isDirFS (removeAllFS fs (toolDir ++ [c])) (toolDir ++ [n])⟩)) := by
    rw [← s2]
    exact (List.perm_insertionSort _ _).filterMap _
  have s5 : List.Perm
      (((childNamesRaw fs toolDir).filterMap
        (fun n => entryOf env fs toolDir ⟨n, isDirFS fs (toolDir ++ [n])⟩)).filter
        (fun e => !(e.version == c)))
      (((sortStrings (childNamesRaw fs toolDir)).filterMap
        (fun n => entryOf env fs toolDir ⟨n, isDirFS fs (toolDir ++ [n])⟩)).filter
        (fun e => !(e.version == c))) :=
    ((List.perm_insertionSort _ _).symm.filterMap _).filter _
  exact (s1.trans (by rw [s3, s4])).trans s5

theorem versionDir_eq (dd : FPath) (name ver : String) :
    dd ++ ["kdev", name, ver] = (dd ++ ["kdev", name]) ++ [ver] := by
  simp

theorem collect_cleanStep_perm (env : ToolEnv) (dd : FPath) (fs : FS) (v : CachedVersion) :
    List.Perm (collectEntries env (cleanStep env dd fs v) (dd ++ ["kdev", env.name]))
      ((collectEntries env fs (dd ++ ["kdev", env.name])).filter
        (fun e => !(e.version == v.version))) := by
  unfold cleanStep
  rw [versionDir_eq dd env.name v.version]
  by_cases hdir : isDirFS fs ((dd ++ ["kdev", env.name]) ++ [v.version]) = true
  · rw [if_pos hdir]
    exact collect_removeAll_perm env fs (dd ++ ["kdev", env.name]) v.version
  · rw [if_neg hdir]
    rw [List.filter_eq_self.mpr ?_]
    · intro e he
      by_contra hcon
      have heq : e.version = v.version := by
        simpa using hcon
      exact hdir (by rw [← heq]; exact mem_collectEntries_isDir env fs _ e he)

theorem collect_foldl_perm (env : ToolEnv) (dd : FPath) :
    ∀ (l : List CachedVersion) (fs : FS),
      List.Perm
        (collectEntries env (l.foldl (cleanStep env dd) fs) (dd ++ ["kdev", env.name]))
        ((collectEntries env fs (dd ++ ["kdev", env.name])).filter
          (fun e => !((l.map (fun v => v.version)).contains e.version)))
  | [], fs => by
    simp only [List.foldl_nil, List.map_nil]
    rw [List.filter_eq_self.mpr (by intro a _; simp)]
  | v :: l, fs => by
    have ih := collect_foldl_perm env dd l (cleanStep env dd fs v)
    have hstep := (collect_cleanStep_perm env dd fs v).filter
      (fun e => !((l.map (fun v => v.version)).contains e.version))
    have hcong : ((collectEntries env fs (dd ++ ["kdev", env.name])).filter
          (fun e => !(e.version == v.version))).filter
          (fun e => !((l.map (fun v => v.version)).contains e.version)) =
        (collectEntries env fs (dd ++ ["kdev", env.name])).filter
          (fun e => !((((v :: l).map (fun v => v.version))).contains e.version)) := by
      rw [List.filter_filter]
      apply List.filter_congr
      intro a _
      simp only [List.map_cons, List.contains_cons, Bool.not_or]
      rw [Bool.and_comm]
    simp only [List.foldl_cons]
    exact ih.trans (hstep.trans (hcong ▸ List.Perm.refl _))

theorem isDirFS_cleanStep_toolDir (env : ToolEnv) (dd : FPath) (fs : FS) (v : CachedVersion)
    (h : isDirFS fs (dd ++ ["kdev", env.name]) = true) :
    isDirFS (cleanStep env dd fs v) (dd ++ ["kdev", env.name]) = true := by
  unfold cleanStep
  by_cases hdir : isDirFS fs (dd ++ ["kdev", env.name, v.version]) = true
  · rw [if_pos hdir, isDirFS_removeAllFS, h]
    have hfalse : pathUnder (dd ++ ["kdev", env.name, v.version])
        (dd ++ ["kdev", env.name]) = false :=
      pathUnder_false_of_longer _ _ (by
        simp only [List.length_append, List.length_cons, List.length_nil]
        omega)
    rw [hfalse]
    rfl
  · rw [if_neg hdir]
    exact h

theorem isDirFS_foldl_toolDir (env : ToolEnv) (dd : FPath) :
    ∀ (l : List CachedVersion) (fs : FS),
      isDirFS fs (dd ++ ["kdev", env.name]) = true →
      isDirFS (l.foldl (cleanStep env dd) fs) (dd ++ ["kdev", env.name]) = true
  | [], _, h => h
  | v :: l, fs, h =>
    isDirFS_foldl_toolDir env dd l (cleanStep env dd fs v)
      (isDirFS_cleanStep_toolDir env dd fs v h)

theorem childNamesRaw_nodup (fs : FS) (d : FPath) (hwf : WellFormedFS fs) :
    (childNamesRaw fs d).Nodup := by
  obtain ⟨hd, hf, hdisj⟩ := hwf
  have hsrc : (fs.dirs ++ fs.files.map Prod.fst).Nodup :=
    List.Nodup.append hd hf (fun p hp1 hp2 => hdisj p hp1 hp2)
  unfold childNamesRaw
  refine List.Nodup.filterMap ?_ hsrc
  intro a a' b hb hb'
  have h1 := extract_eq_some d a b (by simpa using hb)
  have h2 := extract_eq_some d a' b (by simpa using hb')
  rw [h1, h2]

theorem collect_versions_nodup (env : ToolEnv) (fs : FS) (toolDir : FPath)
    (hwf : WellFormedFS fs) :
    ((collectEntries env fs toolDir).map (fun e => e.version)).Nodup := by
  rw [collectEntries_eq]
  refine nodup_filterMap_keyed ?_ _ ?_
  · intro n e he
    exact entryOf_version env fs toolDir _ e he
  · exact (List.perm_insertionSort _ _).nodup_iff.mpr (childNamesRaw_nodup fs toolDir hwf)

theorem cleanVersion_override (env : ToolEnv) (dd : FPath) (fs : FS) (version : String)
    (hdd : env.xdgDataHome = some dd) :
    cleanVersion env fs version =
      .ok (if isDirFS fs (dd ++ ["kdev", env.name, version]) then
            removeAllFS fs (dd ++ ["kdev", env.name, version]) else fs) := by
  simp only [cleanVersion, dataDir, hdd]
  split <;> rfl

theorem cleanOldLoop_override (env : ToolEnv) (dd : FPath) (hdd : env.xdgDataHome = some dd) :
    ∀ (l : List CachedVersion) (fs : FS),
      cleanOldLoop env fs l =
        .ok (l.foldl (cleanStep env dd) fs, (l.map (fun v => v.size)).sum)
  | [], fs => by simp [cleanOldLoop]
  | v :: l, fs => by
    have hstep : (if isDirFS fs (dd ++ ["kdev", env.name, v.version]) = true then
        removeAllFS fs (dd ++ ["kdev", env.name, v.version]) else fs) = cleanStep env dd fs v :=
      rfl
    simp only [cleanOldLoop, cleanVersion_override env dd fs v.version hdd, hstep,
      cleanOldLoop_override env dd hdd l (cleanStep env dd fs v), List.foldl_cons,
      List.map_cons, List.sum_cons]

/-- C9: for a selected tool, `runToolsClean --old` keeps exactly the first
entry of the descending-sorted cached-version list, removes every other
cached version, and reports as reclaimed bytes the sum of only the removed
entries' sizes. -/
theorem c9_clean_old_keeps_newest (env : ToolEnv) (fs : FS) (dd : FPath)
    (vs : List CachedVersion)
    (hdd : env.xdgDataHome = some dd)
    (hwf : WellFormedFS fs)
    (hcv : cachedVersions env fs = .ok vs) :
    runToolsCleanOld env fs =
      .ok (vs.tail.foldl (cleanStep env dd) fs, (vs.tail.map (fun v => v.size)).sum) ∧
    cachedVersions env (vs.tail.foldl (cleanStep env dd) fs) = .ok (vs.take 1) := by
  have hloop := cleanOldLoop_override env dd hdd vs.tail fs
  have hrun : runToolsCleanOld env fs =
      .ok (vs.tail.foldl (cleanStep env dd) fs, (vs.tail.map (fun v => v.size)).sum) := by
    simp only [runToolsCleanOld, hcv, hloop]
  refine ⟨hrun, ?_⟩
  have hdd2 : dataDir env fs = .ok dd := by simp [dataDir, hdd]
  rcases vs with _ | ⟨h0, t⟩
  · simpa using hcv
  · by_cases hdir : isDirFS fs (dd ++ ["kdev", env.name]) = true
    · have hvs : sortCachedVersions (collectEntries env fs (dd ++ ["kdev", env.name])) =
          h0 :: t := by
        have h2 := hcv
        simp only [cachedVersions, hdd2, hdir, if_true] at h2
        simpa using h2
      have hperm0 : List.Perm (h0 :: t)
          (collectEntries env fs (dd ++ ["kdev", env.name])) := by
        rw [← hvs]
        exact sortCachedVersions_perm _
      have hdirF : isDirFS (t.foldl (cleanStep env dd) fs) (dd ++ ["kdev", env.name]) =
          true := isDirFS_foldl_toolDir env dd t fs hdir
      have hpermF := collect_foldl_perm env dd t fs
      have hnodupC := collect_versions_nodup env fs (dd ++ ["kdev", env.name]) hwf
      have hnodupVS : ((h0 :: t).map (fun e => e.version)).Nodup :=
        ((hperm0.map (fun e => e.version)).nodup_iff).mpr hnodupC
      have hpermFilter : List.Perm
          ((collectEntries env fs (dd ++ ["kdev", env.name])).filter
            (fun e => !((t.map (fun v => v.version)).contains e.version)))
          ((h0 :: t).filter
            (fun e => !((t.map (fun v => v.version)).contains e.version))) :=
        (hperm0.symm).filter _
      have hvsfilter : (h0 :: t).filter
          (fun e => !((t.map (fun v => v.version)).contains e.version)) = [h0] := by
        rw [List.filter_cons]
        have hnotmem : h0.version ∉ t.map (fun v => v.version) :=
          (List.nodup_cons.mp (by simpa using hnodupVS)).1
        have hp0 : (!((t.map (fun v => v.version)).contains h0.version)) = true := by
          simpa using hnotmem
        rw [if_pos hp0]
        rw [List.filter_eq_nil_iff.mpr ?_]
        intro e he
        have hmem : e.version ∈ t.map (fun v => v.version) := List.mem_map_of_mem _ he
        simpa using hmem
      have hsingle : collectEntries env (t.foldl (cleanStep env dd) fs)
          (dd ++ ["kdev", env.name]) = [h0] :=
        perm_eq_singleton (hpermF.trans (hpermFilter.trans (hvsfilter ▸ List.Perm.refl _)))
      have hddF : dataDir env (t.foldl (cleanStep env dd) fs) = .ok dd := by
        simp [dataDir, hdd]
      simp only [List.tail_cons, cachedVersions, hddF, hdirF, if_true, hsingle]
      rfl
    · exfalso
      have h2 := hcv
      simp only [cachedVersions, hdd2] at h2
      rw [if_neg hdir] at h2
      simp at h2

/-- C9 witness: cleaning the three-version example cache reclaims `1 + 2`
bytes and leaves exactly the newest `v1.2.10`. -/
theorem c9_clean_old_keeps_newest_witness :
    runToolsCleanOld exEnv exCacheFS =
      .ok (([⟨"v1.2.3", ["data", "kdev", "kubectl", "v1.2.3", "kubectl"], 1⟩,
             ⟨"v1.2.2", ["data", "kdev", "kubectl", "v1.2.2", "kubectl"], 2⟩] :
             List CachedVersion).foldl (cleanStep exEnv ["data"]) exCacheFS, 3) ∧
    cachedVersions exEnv
        (([⟨"v1.2.3", ["data", "kdev", "kubectl", "v1.2.3", "kubectl"], 1⟩,
           ⟨"v1.2.2", ["data", "kdev", "kubectl", "v1.2.2", "kubectl"], 2⟩] :
           List CachedVersion).foldl (cleanStep exEnv ["data"]) exCacheFS) =
      .ok [⟨"v1.2.10", ["data", "kdev", "kubectl", "v1.2.10", "kubectl"], 3⟩] := by
  have h := c9_clean_old_keeps_newest exEnv exCacheFS ["data"]
    [⟨"v1.2.10", ["data", "kdev", "kubectl", "v1.2.10", "kubectl"], 3⟩,
     ⟨"v1.2.3", ["data", "kdev", "kubectl", "v1.2.3", "kubectl"], 1⟩,
     ⟨"v1.2.2", ["data", "kdev", "kubectl", "v1.2.2", "kubectl"], 2⟩]
    rfl (by decide) (by rfl)
  exact ⟨h.1, h.2⟩

end Kdev
